import Mathlib

/-!
Shallow embedding of the `jots` task-list core (src/src/core/schema.ts,
queries.ts, operations.ts, validation.ts) and proofs about it.

Conventions of the embedding:
* TypeScript optional fields (`x?: T`, i.e. possibly `undefined`) become
  `Option T`.
* The clock collaborator `timestamp : () → string` is modelled by passing the
  current instant `now : String` as an explicit argument; every internal
  `timestamp()` read inside one top-level operation yields this `now`.
* `OperationResult<T>` (`{success:true,data} | {success:false,error}`) becomes
  `Except String T` (`.ok` / `.error`).
* JavaScript string `slice(0,n)` is modelled by `String.take n` (they agree on
  strings without surrogate pairs, which covers every string manipulated here).
-/

set_option linter.unusedVariables false

namespace Jots

/-- Status enum (schema.ts `StatusSchema`). -/
inductive Status where
  | pending
  | in_progress
  | completed
  | blocked
deriving DecidableEq, Repr

/-- Item type tag for flattened items (schema.ts `ItemType`). -/
inductive ItemType where
  | epic
  | task
  | subtask
deriving DecidableEq, Repr

/-- Subtask entity (schema.ts `SubtaskSchema` / `Subtask`). -/
structure Subtask where
  id : String
  content : String
  priority : Nat
  status : Status
  created_at : String
  updated_at : Option String := none
  completed_at : Option String := none
  implementation_description : Option String := none
  notes : Option (List String) := none
  deps : Option (List String) := none
deriving DecidableEq, Repr

/-- Task entity (schema.ts `TaskSchema` / `Task`). -/
structure Task where
  id : String
  content : String
  priority : Nat
  status : Status
  created_at : String
  updated_at : Option String := none
  completed_at : Option String := none
  implementation_description : Option String := none
  notes : Option (List String) := none
  deps : Option (List String) := none
  subtasks : List Subtask := []
deriving DecidableEq, Repr

/-- Epic entity (schema.ts `EpicSchema` / `Epic`). -/
structure Epic where
  id : String
  content : String
  priority : Nat
  status : Status
  created_at : String
  updated_at : Option String := none
  completed_at : Option String := none
  implementation_description : Option String := none
  notes : Option (List String) := none
  deps : Option (List String) := none
  tasks : List Task := []
deriving DecidableEq, Repr

/-- Root state (schema.ts `StateSchema` / `State`); `tasks` is the optional
top-level list of standalone tasks (`state.tasks ?? []` in the source). -/
structure State where
  version : Nat
  epics : List Epic
  tasks : Option (List Task) := none
deriving DecidableEq, Repr

/-- Flattened projection of an entity (schema.ts `FlatItem`).  `isStandalone`
is set by `flattenTask`/`flattenSubtask` only, so it is optional here the way
the `undefined` field is on flattened epics. -/
structure FlatItem where
  type : ItemType
  id : String
  content : String
  priority : Nat
  status : Status
  created_at : String
  updated_at : Option String := none
  completed_at : Option String := none
  implementation_description : Option String := none
  notes : Option (List String) := none
  deps : Option (List String) := none
  epicId : Option String := none
  epicContent : Option String := none
  taskId : Option String := none
  taskContent : Option String := none
  depth : Nat
  hasChildren : Bool
  childrenCount : Nat
  completedChildrenCount : Nat
  isStandalone : Option Bool := none
deriving DecidableEq, Repr

/-- queries.ts `flattenEpic`. -/
def flattenEpic (epic : Epic) : FlatItem :=
  let epicTasksCount := epic.tasks.length
  let epicCompletedTasks := (epic.tasks.filter (fun t => t.status == Status.completed)).length
  { type := ItemType.epic
    id := epic.id
    content := epic.content
    priority := epic.priority
    status := epic.status
    created_at := epic.created_at
    updated_at := epic.updated_at
    completed_at := epic.completed_at
    implementation_description := epic.implementation_description
    notes := epic.notes
    deps := epic.deps
    depth := 0
    hasChildren := epicTasksCount > 0
    childrenCount := epicTasksCount
    completedChildrenCount := epicCompletedTasks }

/-- queries.ts `flattenTask`; `epic = none` is the standalone case. -/
def flattenTask (epic : Option Epic) (task : Task) : FlatItem :=
  let taskSubtasksCount := task.subtasks.length
  let taskCompletedSubtasks := (task.subtasks.filter (fun s => s.status == Status.completed)).length
  let isStandalone := epic.isNone
  { type := ItemType.task
    id := task.id
    content := task.content
    priority := task.priority
    status := task.status
    created_at := task.created_at
    updated_at := task.updated_at
    completed_at := task.completed_at
    implementation_description := task.implementation_description
    notes := task.notes
    deps := task.deps
    epicId := epic.map Epic.id
    epicContent := epic.map Epic.content
    depth := if isStandalone then 0 else 1
    hasChildren := taskSubtasksCount > 0
    childrenCount := taskSubtasksCount
    completedChildrenCount := taskCompletedSubtasks
    isStandalone := some isStandalone }

/-- queries.ts `flattenSubtask`; `epic = none` is the standalone case. -/
def flattenSubtask (epic : Option Epic) (task : Task) (subtask : Subtask) : FlatItem :=
  let isStandalone := epic.isNone
  { type := ItemType.subtask
    id := subtask.id
    content := subtask.content
    priority := subtask.priority
    status := subtask.status
    created_at := subtask.created_at
    updated_at := subtask.updated_at
    completed_at := subtask.completed_at
    implementation_description := subtask.implementation_description
    notes := subtask.notes
    deps := subtask.deps
    epicId := epic.map Epic.id
    epicContent := epic.map Epic.content
    taskId := some task.id
    taskContent := some task.content
    depth := if isStandalone then 1 else 2
    hasChildren := false
    childrenCount := 0
    completedChildrenCount := 0
    isStandalone := some isStandalone }

/-- queries.ts `flattenState`: epics with their nested tasks/subtasks in
document order, then the standalone tasks with their subtasks. -/
def flattenState (state : State) : List FlatItem :=
  (state.epics.flatMap (fun epic =>
    flattenEpic epic ::
      epic.tasks.flatMap (fun task =>
        flattenTask (some epic) task ::
          task.subtasks.map (fun subtask => flattenSubtask (some epic) task subtask)))) ++
  ((state.tasks.getD []).flatMap (fun task =>
    flattenTask none task ::
      task.subtasks.map (fun subtask => flattenSubtask none task subtask)))

/-- The optional `level` argument of queries.ts `getNext` (`'any'` is the
default, i.e. no level filter). -/
inductive Level where
  | epic
  | task
  | subtask
  | any
deriving DecidableEq, Repr

/-- The string comparison `item.type === level` of queries.ts `getNext`
(only reached when `level` is not `'any'`). -/
def typeMatchesLevel (t : ItemType) (level : Level) : Bool :=
  match t, level with
  | ItemType.epic, Level.epic => true
  | ItemType.task, Level.task => true
  | ItemType.subtask, Level.subtask => true
  | _, _ => false

/-- queries.ts `GetNextResult`. -/
structure GetNextResult where
  item : Option FlatItem
  queueDepth : Nat
  blockedByDeps : Nat
deriving DecidableEq, Repr

/-- queries.ts `areDepsComplete`: every dep id must resolve (via `find`) to an
item whose status is completed; an unresolved id is never satisfied. -/
def areDepsComplete (item : FlatItem) (allItems : List FlatItem) : Bool :=
  match item.deps with
  | none => true
  | some ds =>
    if ds.length == 0 then true
    else ds.all (fun depId =>
      match allItems.find? (fun i => i.id == depId) with
      | some dep => dep.status == Status.completed
      | none => false)

/-- The comparator passed to `ready.sort` in queries.ts `getNext`:
priority ascending, then (only without a level filter) depth descending. -/
def nextCmp (level : Level) (a b : FlatItem) : Int :=
  if a.priority != b.priority then (a.priority : Int) - (b.priority : Int)
  else if level == Level.any then (b.depth : Int) - (a.depth : Int)
  else 0

/-- Stable insertion of `x` in front of the first element it compares
less-or-equal to. -/
def cmpInsert (cmp : FlatItem → FlatItem → Int) (x : FlatItem) : List FlatItem → List FlatItem
  | [] => [x]
  | y :: ys => if cmp x y ≤ 0 then x :: y :: ys else y :: cmpInsert cmp x ys

/-- Model of ECMAScript `Array.prototype.sort` with a consistent comparator:
the spec requires the result to be sorted and stable, which determines it
uniquely; stable insertion sort realizes exactly that result. -/
def jsSort (cmp : FlatItem → FlatItem → Int) : List FlatItem → List FlatItem
  | [] => []
  | x :: xs => cmpInsert cmp x (jsSort cmp xs)

/-- queries.ts `getNext`: flatten, keep actionable statuses, apply the level
filter, drop items with unmet deps, stable-sort by `nextCmp`, return the head
plus the ready count and the count blocked by deps. -/
def getNext (state : State) (level : Level) : GetNextResult :=
  let flat := flattenState state
  let actionable := flat.filter (fun item =>
    item.status == Status.pending || item.status == Status.in_progress)
  let filtered := if level == Level.any then actionable
    else actionable.filter (fun item => typeMatchesLevel item.type level)
  let ready := filtered.filter (fun item => areDepsComplete item flat)
  let blockedByDeps := filtered.length - ready.length
  let sorted := jsSort (nextCmp level) ready
  { item := sorted.head?, queueDepth := ready.length, blockedByDeps := blockedByDeps }

/-- schema.ts `UpdateItemInput`: a partial set of field changes (`none` models
an absent field). -/
structure UpdateItemInput where
  content : Option String := none
  priority : Option Nat := none
  status : Option Status := none
  implementation_description : Option String := none
  notes : Option (List String) := none
  deps : Option (List String) := none
deriving DecidableEq, Repr

/-- operations.ts `applyUpdate` instantiated at `Epic` (the source function is
generic and spreads the present input fields over the item): apply present
fields, always refresh `updated_at`, and set `completed_at` exactly when the
incoming status is `completed`. -/
def applyUpdateEpic (item : Epic) (input : UpdateItemInput) (now : String) : Epic :=
  { item with
    content := input.content.getD item.content
    priority := input.priority.getD item.priority
    status := input.status.getD item.status
    implementation_description :=
      match input.implementation_description with
      | some v => some v
      | none => item.implementation_description
    notes := match input.notes with | some v => some v | none => item.notes
    deps := match input.deps with | some v => some v | none => item.deps
    updated_at := some now
    completed_at :=
      if input.status == some Status.completed then some now else item.completed_at }

/-- operations.ts `applyUpdate` instantiated at `Task`. -/
def applyUpdateTask (item : Task) (input : UpdateItemInput) (now : String) : Task :=
  { item with
    content := input.content.getD item.content
    priority := input.priority.getD item.priority
    status := input.status.getD item.status
    implementation_description :=
      match input.implementation_description with
      | some v => some v
      | none => item.implementation_description
    notes := match input.notes with | some v => some v | none => item.notes
    deps := match input.deps with | some v => some v | none => item.deps
    updated_at := some now
    completed_at :=
      if input.status == some Status.completed then some now else item.completed_at }

/-- operations.ts `applyUpdate` instantiated at `Subtask`. -/
def applyUpdateSubtask (item : Subtask) (input : UpdateItemInput) (now : String) : Subtask :=
  { item with
    content := input.content.getD item.content
    priority := input.priority.getD item.priority
    status := input.status.getD item.status
    implementation_description :=
      match input.implementation_description with
      | some v => some v
      | none => item.implementation_description
    notes := match input.notes with | some v => some v | none => item.notes
    deps := match input.deps with | some v => some v | none => item.deps
    updated_at := some now
    completed_at :=
      if input.status == some Status.completed then some now else item.completed_at }

/-- operations.ts `findEpic` (findIndex + index, `null` when absent). -/
def findEpic (state : State) (epicId : String) : Option (Epic × Nat) :=
  match state.epics.findIdx? (fun e => e.id == epicId) with
  | none => none
  | some index =>
    match state.epics[index]? with
    | none => none
    | some epic => some (epic, index)

/-- operations.ts `findTask`. -/
def findTask (state : State) (epicId taskId : String) :
    Option (Epic × Nat × Task × Nat) :=
  match findEpic state epicId with
  | none => none
  | some (epic, epicIndex) =>
    match epic.tasks.findIdx? (fun t => t.id == taskId) with
    | none => none
    | some taskIndex =>
      match epic.tasks[taskIndex]? with
      | none => none
      | some task => some (epic, epicIndex, task, taskIndex)

/-- operations.ts `findSubtask`. -/
def findSubtask (state : State) (epicId taskId subtaskId : String) :
    Option (Epic × Nat × Task × Nat × Subtask × Nat) :=
  match findTask state epicId taskId with
  | none => none
  | some (epic, epicIndex, task, taskIndex) =>
    match task.subtasks.findIdx? (fun s => s.id == subtaskId) with
    | none => none
    | some subtaskIndex =>
      match task.subtasks[subtaskIndex]? with
      | none => none
      | some subtask => some (epic, epicIndex, task, taskIndex, subtask, subtaskIndex)

/-- operations.ts `findStandaloneTask`. -/
def findStandaloneTask (state : State) (taskId : String) : Option (Task × Nat) :=
  let tasks := state.tasks.getD []
  match tasks.findIdx? (fun t => t.id == taskId) with
  | none => none
  | some index =>
    match tasks[index]? with
    | none => none
    | some task => some (task, index)

/-- operations.ts `updateStandaloneTaskInState`. -/
def updateStandaloneTaskInState (state : State) (index : Nat) (task : Task) : State :=
  { state with tasks := some ((state.tasks.getD []).set index task) }

/-- operations.ts `updateEpicInState`. -/
def updateEpicInState (state : State) (index : Nat) (epic : Epic) : State :=
  { state with epics := state.epics.set index epic }

/-- operations.ts `updateTaskInEpic`. -/
def updateTaskInEpic (epic : Epic) (taskIndex : Nat) (task : Task) (now : String) : Epic :=
  { epic with tasks := epic.tasks.set taskIndex task, updated_at := some now }

/-- operations.ts `updateSubtaskInTask`. -/
def updateSubtaskInTask (task : Task) (subtaskIndex : Nat) (subtask : Subtask) (now : String) :
    Task :=
  { task with subtasks := task.subtasks.set subtaskIndex subtask, updated_at := some now }

/-- operations.ts `updateEpic`. -/
def updateEpic (state : State) (epicId : String) (input : UpdateItemInput) (now : String) :
    Except String State :=
  match findEpic state epicId with
  | none => Except.error ("Epic not found: " ++ epicId)
  | some (epic, index) =>
    Except.ok (updateEpicInState state index (applyUpdateEpic epic input now))

/-- operations.ts `updateTask`. -/
def updateTask (state : State) (epicId taskId : String) (input : UpdateItemInput)
    (now : String) : Except String State :=
  match findTask state epicId taskId with
  | none => Except.error ("Task not found: " ++ taskId)
  | some (epic, epicIndex, task, taskIndex) =>
    let updatedTask := applyUpdateTask task input now
    let updatedEpic := updateTaskInEpic epic taskIndex updatedTask now
    Except.ok (updateEpicInState state epicIndex updatedEpic)

/-- operations.ts `updateSubtask`. -/
def updateSubtask (state : State) (epicId taskId subtaskId : String)
    (input : UpdateItemInput) (now : String) : Except String State :=
  match findSubtask state epicId taskId subtaskId with
  | none => Except.error ("Subtask not found: " ++ subtaskId)
  | some (epic, epicIndex, task, taskIndex, subtask, subtaskIndex) =>
    let updatedSubtask := applyUpdateSubtask subtask input now
    let updatedTask := updateSubtaskInTask task subtaskIndex updatedSubtask now
    let updatedEpic := updateTaskInEpic epic taskIndex updatedTask now
    Except.ok (updateEpicInState state epicIndex updatedEpic)

/-- operations.ts `updateStandaloneTask`. -/
def updateStandaloneTask (state : State) (taskId : String) (input : UpdateItemInput)
    (now : String) : Except String State :=
  match findStandaloneTask state taskId with
  | none => Except.error ("Standalone task not found: " ++ taskId)
  | some (task, index) =>
    Except.ok (updateStandaloneTaskInState state index (applyUpdateTask task input now))

/-- operations.ts `updateStandaloneSubtask`. -/
def updateStandaloneSubtask (state : State) (taskId subtaskId : String)
    (input : UpdateItemInput) (now : String) : Except String State :=
  match findStandaloneTask state taskId with
  | none => Except.error ("Standalone task not found: " ++ taskId)
  | some (task, index) =>
    match task.subtasks.findIdx? (fun s => s.id == subtaskId) with
    | none => Except.error ("Subtask not found: " ++ subtaskId)
    | some subtaskIndex =>
      match task.subtasks[subtaskIndex]? with
      | none => Except.error ("Subtask not found: " ++ subtaskId)
      | some subtask =>
        let updatedSubtask := applyUpdateSubtask subtask input now
        let updatedSubtasks := task.subtasks.set subtaskIndex updatedSubtask
        let updatedTask : Task :=
          { task with subtasks := updatedSubtasks, updated_at := some now }
        Except.ok (updateStandaloneTaskInState state index updatedTask)

/-- The `{status:'completed'}` update input used by the mark-complete path. -/
def completedInput : UpdateItemInput := { status := some Status.completed }

/-- operations.ts `markEpicComplete`. -/
def markEpicComplete (state : State) (epicId : String) (now : String) : Except String State :=
  updateEpic state epicId completedInput now

/-- operations.ts `maybeCompleteEpic`. -/
def maybeCompleteEpic (state : State) (epicId : String) (now : String) : Except String State :=
  match state.epics.find? (fun e => e.id == epicId) with
  | none => Except.ok state
  | some epic =>
    if epic.tasks.length == 0 then Except.ok state
    else if epic.tasks.all (fun t => t.status == Status.completed) then
      updateEpic state epicId completedInput now
    else Except.ok state

/-- operations.ts `maybeCompleteTaskAndEpic`. -/
def maybeCompleteTaskAndEpic (state : State) (epicId taskId : String) (now : String) :
    Except String State :=
  match (state.epics.find? (fun e => e.id == epicId)).bind
      (fun epic => epic.tasks.find? (fun t => t.id == taskId)) with
  | none => Except.ok state
  | some task =>
    if task.subtasks.length == 0 then Except.ok state
    else if !(task.subtasks.all (fun s => s.status == Status.completed))
        || task.status == Status.completed then Except.ok state
    else
      match updateTask state epicId taskId completedInput now with
      | Except.error e => Except.error e
      | Except.ok nextState => maybeCompleteEpic nextState epicId now

/-- operations.ts `completeTaskAndCascade`. -/
def completeTaskAndCascade (state : State) (epicId taskId : String) (now : String) :
    Except String State :=
  match updateTask state epicId taskId completedInput now with
  | Except.error e => Except.error e
  | Except.ok nextState => maybeCompleteEpic nextState epicId now

/-- operations.ts `completeSubtaskAndCascade`. -/
def completeSubtaskAndCascade (state : State) (epicId taskId subtaskId : String)
    (now : String) : Except String State :=
  match updateSubtask state epicId taskId subtaskId completedInput now with
  | Except.error e => Except.error e
  | Except.ok nextState => maybeCompleteTaskAndEpic nextState epicId taskId now

/-- operations.ts `findAndCompleteSubtask`. -/
def findAndCompleteSubtask (state : State) (epic : Epic) (task : Task) (id now : String) :
    Option (Except String State) :=
  match task.subtasks.find? (fun s => s.id == id) with
  | none => none
  | some _ => some (completeSubtaskAndCascade state epic.id task.id id now)

/-- operations.ts `findAndCompleteTask`: the inner loop over one epic's tasks. -/
def findAndCompleteTaskLoop (state : State) (epic : Epic) (id now : String) :
    List Task → Option (Except String State)
  | [] => none
  | task :: rest =>
    if task.id == id then some (completeTaskAndCascade state epic.id id now)
    else
      match findAndCompleteSubtask state epic task id now with
      | some r => some r
      | none => findAndCompleteTaskLoop state epic id now rest

/-- operations.ts `findAndCompleteTask`. -/
def findAndCompleteTask (state : State) (epic : Epic) (id now : String) :
    Option (Except String State) :=
  findAndCompleteTaskLoop state epic id now epic.tasks

/-- operations.ts `maybeCompleteStandaloneTask`. -/
def maybeCompleteStandaloneTask (state : State) (taskId now : String) : Except String State :=
  match (state.tasks.getD []).find? (fun t => t.id == taskId) with
  | none => Except.ok state
  | some task =>
    if task.subtasks.length == 0 then Except.ok state
    else if !(task.subtasks.all (fun s => s.status == Status.completed))
        || task.status == Status.completed then Except.ok state
    else updateStandaloneTask state taskId completedInput now

/-- operations.ts `completeStandaloneSubtaskAndCascade`. -/
def completeStandaloneSubtaskAndCascade (state : State) (taskId subtaskId now : String) :
    Except String State :=
  match findStandaloneTask state taskId with
  | none => Except.error ("Standalone task not found: " ++ taskId)
  | some (task, index) =>
    match task.subtasks.findIdx? (fun s => s.id == subtaskId) with
    | none => Except.error ("Subtask not found: " ++ subtaskId)
    | some subtaskIndex =>
      match task.subtasks[subtaskIndex]? with
      | none => Except.error ("Subtask not found: " ++ subtaskId)
      | some subtask =>
        let updatedSubtask := applyUpdateSubtask subtask completedInput now
        let updatedSubtasks := task.subtasks.set subtaskIndex updatedSubtask
        let updatedTask : Task :=
          { task with subtasks := updatedSubtasks, updated_at := some now }
        let newState := updateStandaloneTaskInState state index updatedTask
        maybeCompleteStandaloneTask newState taskId now

/-- operations.ts `completeStandaloneTask`. -/
def completeStandaloneTask (state : State) (taskId now : String) : Except String State :=
  updateStandaloneTask state taskId completedInput now

/-- operations.ts `findAndCompleteStandaloneSubtask`. -/
def findAndCompleteStandaloneSubtask (state : State) (task : Task) (id now : String) :
    Option (Except String State) :=
  match task.subtasks.find? (fun s => s.id == id) with
  | none => none
  | some _ => some (completeStandaloneSubtaskAndCascade state task.id id now)

/-- The standalone-task loop of operations.ts `markComplete`. -/
def markCompleteStandaloneLoop (state : State) (id now : String) :
    List Task → Option (Except String State)
  | [] => none
  | task :: rest =>
    if task.id == id then some (completeStandaloneTask state id now)
    else
      match findAndCompleteStandaloneSubtask state task id now with
      | some r => some r
      | none => markCompleteStandaloneLoop state id now rest

/-- The epic loop of operations.ts `markComplete`. -/
def markCompleteEpicsLoop (state : State) (id now : String) :
    List Epic → Option (Except String State)
  | [] => none
  | epic :: rest =>
    if epic.id == id then some (markEpicComplete state id now)
    else
      match findAndCompleteTask state epic id now with
      | some r => some r
      | none => markCompleteEpicsLoop state id now rest

/-- operations.ts `markComplete`: search epics (and their tasks/subtasks),
then standalone tasks (and their subtasks), completing the first match. -/
def markComplete (state : State) (id now : String) : Except String State :=
  match markCompleteEpicsLoop state id now state.epics with
  | some r => r
  | none =>
    match markCompleteStandaloneLoop state id now (state.tasks.getD []) with
    | some r => r
    | none => Except.error ("Item not found: " ++ id)

/-- operations.ts `removeEpic`. -/
def removeEpic (state : State) (epicIndex : Nat) : Except String State :=
  Except.ok { state with epics := state.epics.eraseIdx epicIndex }

/-- operations.ts `removeTask`. -/
def removeTask (state : State) (epicIndex : Nat) (epic : Epic) (taskIndex : Nat)
    (now : String) : Except String State :=
  let updatedEpic : Epic :=
    { epic with tasks := epic.tasks.eraseIdx taskIndex, updated_at := some now }
  Except.ok (updateEpicInState state epicIndex updatedEpic)

/-- operations.ts `removeSubtask`. -/
def removeSubtask (state : State) (epicIndex : Nat) (epic : Epic) (taskIndex : Nat)
    (task : Task) (subtaskIndex : Nat) (now : String) : Except String State :=
  let updatedTask : Task :=
    { task with subtasks := task.subtasks.eraseIdx subtaskIndex, updated_at := some now }
  let updatedEpic := updateTaskInEpic epic taskIndex updatedTask now
  Except.ok (updateEpicInState state epicIndex updatedEpic)

/-- operations.ts `findAndRemoveSubtask`. -/
def findAndRemoveSubtask (state : State) (epicIndex : Nat) (epic : Epic)
    (taskIndex : Nat) (task : Task) (id now : String) : Option (Except String State) :=
  match task.subtasks.findIdx? (fun s => s.id == id) with
  | none => none
  | some subtaskIndex => some (removeSubtask state epicIndex epic taskIndex task subtaskIndex now)

/-- The task loop of operations.ts `findAndRemoveTask`, carrying the index of
the task under scrutiny. -/
def findAndRemoveTaskLoop (state : State) (epic : Epic) (epicIndex : Nat) (id now : String) :
    Nat → List Task → Option (Except String State)
  | _, [] => none
  | i, task :: rest =>
    if task.id == id then some (removeTask state epicIndex epic i now)
    else
      match findAndRemoveSubtask state epicIndex epic i task id now with
      | some r => some r
      | none => findAndRemoveTaskLoop state epic epicIndex id now (i + 1) rest

/-- operations.ts `findAndRemoveTask`. -/
def findAndRemoveTask (state : State) (epic : Epic) (epicIndex : Nat) (id now : String) :
    Option (Except String State) :=
  findAndRemoveTaskLoop state epic epicIndex id now 0 epic.tasks

/-- operations.ts `removeStandaloneTask`. -/
def removeStandaloneTask (state : State) (taskIndex : Nat) : Except String State :=
  Except.ok { state with tasks := some ((state.tasks.getD []).eraseIdx taskIndex) }

/-- operations.ts `removeStandaloneSubtask`. -/
def removeStandaloneSubtask (state : State) (taskIndex : Nat) (task : Task)
    (subtaskIndex : Nat) (now : String) : Except String State :=
  let updatedTask : Task :=
    { task with subtasks := task.subtasks.eraseIdx subtaskIndex, updated_at := some now }
  Except.ok (updateStandaloneTaskInState state taskIndex updatedTask)

/-- operations.ts `findAndRemoveStandaloneSubtask`. -/
def findAndRemoveStandaloneSubtask (state : State) (taskIndex : Nat) (task : Task)
    (id now : String) : Option (Except String State) :=
  match task.subtasks.findIdx? (fun s => s.id == id) with
  | none => none
  | some subtaskIndex => some (removeStandaloneSubtask state taskIndex task subtaskIndex now)

/-- The standalone-task loop of operations.ts `removeItem`. -/
def removeItemStandaloneLoop (state : State) (id now : String) :
    Nat → List Task → Option (Except String State)
  | _, [] => none
  | i, task :: rest =>
    if task.id == id then some (removeStandaloneTask state i)
    else
      match findAndRemoveStandaloneSubtask state i task id now with
      | some r => some r
      | none => removeItemStandaloneLoop state id now (i + 1) rest

/-- The epic loop of operations.ts `removeItem`. -/
def removeItemEpicsLoop (state : State) (id now : String) :
    Nat → List Epic → Option (Except String State)
  | _, [] => none
  | i, epic :: rest =>
    if epic.id == id then some (removeEpic state i)
    else
      match findAndRemoveTask state epic i id now with
      | some r => some r
      | none => removeItemEpicsLoop state id now (i + 1) rest

/-- operations.ts `removeItem`: locate the id anywhere in the tree and delete
it with its whole owned subtree. -/
def removeItem (state : State) (id now : String) : Except String State :=
  match removeItemEpicsLoop state id now 0 state.epics with
  | some r => r
  | none =>
    match removeItemStandaloneLoop state id now 0 (state.tasks.getD []) with
    | some r => r
    | none => Except.error ("Item not found: " ++ id)

/-- validation.ts `LintResult`. -/
structure LintResult where
  warnings : List String
  suggestions : List String
deriving DecidableEq, Repr

/-- validation.ts `checkEpicCompletion`. -/
def checkEpicCompletion (epic : Epic) : Option String :=
  if epic.status != Status.completed then none
  else
    let incompleteTasks := epic.tasks.filter (fun t => t.status != Status.completed)
    if incompleteTasks.length == 0 then none
    else some ("Epic \"" ++ epic.content.take 30 ++ "...\" is completed but has "
      ++ toString incompleteTasks.length ++ " incomplete task(s)")

/-- validation.ts `checkTaskCompletion`. -/
def checkTaskCompletion (task : Task) : Option String :=
  if task.status != Status.completed then none
  else
    let incompleteSubtasks := task.subtasks.filter (fun s => s.status != Status.completed)
    if incompleteSubtasks.length == 0 then none
    else some ("Task \"" ++ task.content.take 30 ++ "...\" is completed but has "
      ++ toString incompleteSubtasks.length ++ " incomplete subtask(s)")

/-- validation.ts `suggestTaskCompletion`. -/
def suggestTaskCompletion (task : Task) : Option String :=
  if task.status == Status.completed || task.subtasks.length == 0 then none
  else if task.subtasks.all (fun s => s.status == Status.completed) then
    some ("Task \"" ++ task.content.take 30
      ++ "...\" has all subtasks complete - consider marking it complete")
  else none

/-- validation.ts `suggestEpicCompletion`. -/
def suggestEpicCompletion (epic : Epic) : Option String :=
  if epic.status == Status.completed || epic.tasks.length == 0 then none
  else if epic.tasks.all (fun t => t.status == Status.completed) then
    some ("Epic \"" ++ epic.content.take 30
      ++ "...\" has all tasks complete - consider marking it complete")
  else none

/-- validation.ts `checkEpicDeps` (the `Set` of all epic ids is modelled by a
list queried with `contains`). -/
def checkEpicDeps (epic : Epic) (allEpicIds : List String) : List String :=
  match epic.deps with
  | none => []
  | some ds =>
    ds.filterMap (fun depId =>
      if depId == epic.id then
        some ("Epic \"" ++ epic.content.take 20 ++ "...\" depends on itself")
      else if !(allEpicIds.contains depId) then
        some ("Epic \"" ++ epic.content.take 20 ++ "...\" has invalid dep: " ++ depId)
      else none)

/-- validation.ts `checkTaskDeps`. -/
def checkTaskDeps (task : Task) (epicTaskIds : List String) (epicContent : String) :
    List String :=
  match task.deps with
  | none => []
  | some ds =>
    ds.filterMap (fun depId =>
      if depId == task.id then
        some ("Task \"" ++ task.content.take 20 ++ "...\" depends on itself")
      else if !(epicTaskIds.contains depId) then
        some ("Task \"" ++ task.content.take 20 ++ "...\" in \"" ++ epicContent.take 15
          ++ "...\" has invalid dep: " ++ depId)
      else none)

/-- validation.ts `checkSubtaskDeps`. -/
def checkSubtaskDeps (subtask : Subtask) (taskSubtaskIds : List String)
    (taskContent : String) : List String :=
  match subtask.deps with
  | none => []
  | some ds =>
    ds.filterMap (fun depId =>
      if depId == subtask.id then
        some ("Subtask \"" ++ subtask.content.take 20 ++ "...\" depends on itself")
      else if !(taskSubtaskIds.contains depId) then
        some ("Subtask \"" ++ subtask.content.take 20 ++ "...\" in \"" ++ taskContent.take 15
          ++ "...\" has invalid dep: " ++ depId)
      else none)

/-- The shape checkCycles needs from an item (validation.ts takes any
`{id, deps?, content}` structurally; epics/tasks/subtasks are projected to
this record). -/
structure CycleItem where
  id : String
  deps : Option (List String) := none
  content : String
deriving DecidableEq, Repr

/-- Lookup in the deps map (JavaScript `Map.get`), modelled on an association
list whose bindings are unique by construction of `mapSet`. -/
def mapLookup (m : List (String × List String)) (k : String) : Option (List String) :=
  (m.find? (fun p => p.1 == k)).map (fun p => p.2)

/-- JavaScript `Map.set`: overwrite an existing binding, else append. -/
def mapSet (m : List (String × List String)) (k : String) (v : List String) :
    List (String × List String) :=
  if m.any (fun p => p.1 == k) then
    m.map (fun p => if p.1 == k then (k, v) else p)
  else m ++ [(k, v)]

/-- The deps map built by validation.ts `checkCycles`
(`for (const item of items) depsMap.set(item.id, item.deps ?? [])`). -/
def buildDepsMapAux (m : List (String × List String)) : List CycleItem →
    List (String × List String)
  | [] => m
  | item :: rest => buildDepsMapAux (mapSet m item.id (item.deps.getD [])) rest

/-- The deps map of validation.ts `checkCycles`. -/
def buildDepsMap (items : List CycleItem) : List (String × List String) :=
  buildDepsMapAux [] items

/-- validation.ts `detectCycle`: depth-first traversal that reports a cycle as
soon as an id still on the active recursion stack (`visited`) is revisited.
The source recursion needs no fuel; here `fuel` makes it structural.  Any
chain of nested calls enters pairwise-distinct ids, and every entered id
except possibly the last maps to a nonempty deps list and hence is a key of
`depsMap`, so chains are no longer than `items.length + 1`; `checkCycles`
passes exactly that much fuel, which therefore never runs out. -/
def detectCycle (fuel : Nat) (id : String) (deps : List String)
    (depsMap : List (String × List String)) (visited : List String) : Bool :=
  match fuel with
  | 0 => false
  | Nat.succ fuel =>
    if visited.contains id then true
    else deps.any (fun depId =>
      detectCycle fuel depId ((mapLookup depsMap depId).getD []) depsMap (id :: visited))

/-- validation.ts `checkCycles`. -/
def checkCycles (items : List CycleItem) (typeLabel : String) : List String :=
  let depsMap := buildDepsMap items
  items.filterMap (fun item =>
    match item.deps with
    | none => none
    | some ds =>
      if ds.length == 0 then none
      else if detectCycle (items.length + 1) item.id ds depsMap [] then
        some (typeLabel ++ " \"" ++ item.content.take 20 ++ "...\" has circular dependency")
      else none)

/-- Projection of a task to the structural item type taken by checkCycles. -/
def taskCycleItem (t : Task) : CycleItem :=
  { id := t.id, deps := t.deps, content := t.content }

/-- Projection of a subtask to the structural item type taken by checkCycles. -/
def subtaskCycleItem (s : Subtask) : CycleItem :=
  { id := s.id, deps := s.deps, content := s.content }

/-- Projection of an epic to the structural item type taken by checkCycles. -/
def epicCycleItem (e : Epic) : CycleItem :=
  { id := e.id, deps := e.deps, content := e.content }

/-- validation.ts `lintEpic`. -/
def lintEpic (epic : Epic) : LintResult :=
  let taskIds := epic.tasks.map Task.id
  let perTask := epic.tasks.flatMap (fun task =>
    (checkTaskCompletion task).toList
      ++ checkTaskDeps task taskIds epic.content
      ++ task.subtasks.flatMap (fun subtask =>
          checkSubtaskDeps subtask (task.subtasks.map Subtask.id) task.content)
      ++ checkCycles (task.subtasks.map subtaskCycleItem) "Subtask")
  { warnings := (checkEpicCompletion epic).toList ++ perTask
      ++ checkCycles (epic.tasks.map taskCycleItem) "Task"
    suggestions := epic.tasks.filterMap suggestTaskCompletion
      ++ (suggestEpicCompletion epic).toList }

/-- validation.ts `lintState`. -/
def lintState (state : State) : LintResult :=
  let epicIds := state.epics.map Epic.id
  let perEpic := state.epics.flatMap (fun epic =>
    checkEpicDeps epic epicIds ++ (lintEpic epic).warnings)
  { warnings := perEpic ++ checkCycles (state.epics.map epicCycleItem) "Epic"
    suggestions := state.epics.flatMap (fun epic => (lintEpic epic).suggestions) }

/-- JSON-like documents, the untrusted input of validation.ts `validateState`
(numbers are restricted to integers; the only numeric fields are the version
literal and the 1-5 priority). -/
inductive Json where
  | null
  | bool (b : Bool)
  | num (n : Int)
  | str (s : String)
  | arr (elems : List Json)
  | obj (fields : List (String × Json))
deriving Repr

/-- Field access on a JSON object's field list. -/
def getField (fields : List (String × Json)) (key : String) : Option Json :=
  (fields.find? (fun p => p.1 == key)).map (fun p => p.2)

/-- Modelled from the spec: the `z.string().datetime()` timestamp-format check
of the schema (the current schema.ts is not in the sources).  Accepts the
ISO 8601 UTC shape `YYYY-MM-DDTHH:MM:SSZ` with an optional fractional-seconds
part, e.g. `2024-01-15T10:30:00.000Z`. -/
def isIsoTimestamp (s : String) : Bool :=
  match s.toList with
  | y1 :: y2 :: y3 :: y4 :: '-' :: m1 :: m2 :: '-' :: d1 :: d2 :: 'T'
      :: h1 :: h2 :: ':' :: n1 :: n2 :: ':' :: s1 :: s2 :: rest =>
    [y1, y2, y3, y4, m1, m2, d1, d2, h1, h2, n1, n2, s1, s2].all Char.isDigit &&
    (match rest with
     | ['Z'] => true
     | '.' :: more =>
       match more.getLast? with
       | some 'Z' => more.dropLast.length > 0 && more.dropLast.all Char.isDigit
       | _ => false
     | _ => false)
  | _ => false

/-- Elementwise parsing of a subtask array (zod array semantics: every
element must parse, otherwise the whole array is rejected). -/
def parseSubtasksWith (parseOne : Json → Option Subtask) : List Json → Option (List Subtask)
  | [] => some []
  | j :: rest =>
    match parseOne j, parseSubtasksWith parseOne rest with
    | some s, some ss => some (s :: ss)
    | _, _ => none

/-- Elementwise parsing of a task array. -/
def parseTasksWith (parseOne : Json → Option Task) : List Json → Option (List Task)
  | [] => some []
  | j :: rest =>
    match parseOne j, parseTasksWith parseOne rest with
    | some t, some ts => some (t :: ts)
    | _, _ => none

/-- Elementwise parsing of an epic array. -/
def parseEpicsWith (parseOne : Json → Option Epic) : List Json → Option (List Epic)
  | [] => some []
  | j :: rest =>
    match parseOne j, parseEpicsWith parseOne rest with
    | some e, some es => some (e :: es)
    | _, _ => none

/-- A JSON value as a string. -/
def asStr : Json → Option String
  | Json.str s => some s
  | _ => none

/-- A JSON value as an array of strings (`z.array(z.string())`). -/
def asStrList : Json → Option (List String)
  | Json.arr elems => elems.mapM asStr
  | _ => none

/-- An optional string field: absent is accepted as `none`; a present field
must be a string. -/
def parseOptStr (fields : List (String × Json)) (key : String) : Option (Option String) :=
  match getField fields key with
  | none => some none
  | some j => (asStr j).map some

/-- An optional timestamp field (`z.string().datetime().optional()`). -/
def parseOptTimestamp (fields : List (String × Json)) (key : String) :
    Option (Option String) :=
  match getField fields key with
  | none => some none
  | some j =>
    match asStr j with
    | some s => if isIsoTimestamp s then some (some s) else none
    | none => none

/-- An optional string-array field (`notes` / `deps`). -/
def parseOptStrList (fields : List (String × Json)) (key : String) :
    Option (Option (List String)) :=
  match getField fields key with
  | none => some none
  | some j => (asStrList j).map some

/-- Modelled from the spec: the status enum member check, with the schema's
`.default('pending')` for an absent field. -/
def parseStatus (fields : List (String × Json)) : Option Status :=
  match getField fields "status" with
  | none => some Status.pending
  | some (Json.str "pending") => some Status.pending
  | some (Json.str "in_progress") => some Status.in_progress
  | some (Json.str "completed") => some Status.completed
  | some (Json.str "blocked") => some Status.blocked
  | some _ => none

/-- Modelled from the spec: the priority check `integer 1-5`. -/
def parsePriority (fields : List (String × Json)) : Option Nat :=
  match getField fields "priority" with
  | some (Json.num n) => if 1 ≤ n && n ≤ 5 then some n.toNat else none
  | _ => none

/-- The `id` field check (`z.string().min(1)`). -/
def parseId (fields : List (String × Json)) : Option String :=
  match getField fields "id" with
  | some (Json.str s) => if s.length ≥ 1 then some s else none
  | _ => none

/-- The `content` field check (`content` length at least 10 characters). -/
def parseContent (fields : List (String × Json)) : Option String :=
  match getField fields "content" with
  | some (Json.str s) => if s.length ≥ 10 then some s else none
  | _ => none

/-- The required `created_at` timestamp field. -/
def parseCreatedAt (fields : List (String × Json)) : Option String :=
  match getField fields "created_at" with
  | some (Json.str s) => if isIsoTimestamp s then some s else none
  | _ => none

/-- Modelled from the spec: the Subtask member of the current `StateSchema`
(the current schema.ts is not in the sources; fields and field-level
invariants follow spec §3: `id` nonempty, `content` length ≥ 10, `priority`
1-5, `status` enum with default pending, ISO timestamps, optional notes, deps
and implementation description, no children). -/
def parseSubtask (j : Json) : Option Subtask :=
  match j with
  | Json.obj fields =>
    match parseId fields, parseContent fields, parsePriority fields, parseStatus fields,
        parseCreatedAt fields with
    | some id, some content, some priority, some status, some created_at =>
      match parseOptTimestamp fields "updated_at", parseOptTimestamp fields "completed_at",
          parseOptStr fields "implementation_description",
          parseOptStrList fields "notes", parseOptStrList fields "deps" with
      | some updated_at, some completed_at, some impl, some notes, some deps =>
        some { id := id, content := content, priority := priority, status := status,
               created_at := created_at, updated_at := updated_at,
               completed_at := completed_at, implementation_description := impl,
               notes := notes, deps := deps }
      | _, _, _, _, _ => none
    | _, _, _, _, _ => none
  | _ => none

/-- Modelled from the spec: the Task member of the current `StateSchema`;
like Subtask plus a `subtasks` array defaulting to `[]` when absent. -/
def parseTask (j : Json) : Option Task :=
  match j with
  | Json.obj fields =>
    match parseId fields, parseContent fields, parsePriority fields, parseStatus fields,
        parseCreatedAt fields with
    | some id, some content, some priority, some status, some created_at =>
      match parseOptTimestamp fields "updated_at", parseOptTimestamp fields "completed_at",
          parseOptStr fields "implementation_description",
          parseOptStrList fields "notes", parseOptStrList fields "deps" with
      | some updated_at, some completed_at, some impl, some notes, some deps =>
        match (match getField fields "subtasks" with
               | none => some []
               | some (Json.arr elems) => parseSubtasksWith parseSubtask elems
               | some _ => none) with
        | some subtasks =>
          some { id := id, content := content, priority := priority, status := status,
                 created_at := created_at, updated_at := updated_at,
                 completed_at := completed_at, implementation_description := impl,
                 notes := notes, deps := deps, subtasks := subtasks }
        | none => none
      | _, _, _, _, _ => none
    | _, _, _, _, _ => none
  | _ => none

/-- Modelled from the spec: the Epic member of the current `StateSchema`;
like Task but with a `tasks` array (defaulting to `[]`) instead of
`subtasks`. -/
def parseEpic (j : Json) : Option Epic :=
  match j with
  | Json.obj fields =>
    match parseId fields, parseContent fields, parsePriority fields, parseStatus fields,
        parseCreatedAt fields with
    | some id, some content, some priority, some status, some created_at =>
      match parseOptTimestamp fields "updated_at", parseOptTimestamp fields "completed_at",
          parseOptStr fields "implementation_description",
          parseOptStrList fields "notes", parseOptStrList fields "deps" with
      | some updated_at, some completed_at, some impl, some notes, some deps =>
        match (match getField fields "tasks" with
               | none => some []
               | some (Json.arr elems) => parseTasksWith parseTask elems
               | some _ => none) with
        | some tasks =>
          some { id := id, content := content, priority := priority, status := status,
                 created_at := created_at, updated_at := updated_at,
                 completed_at := completed_at, implementation_description := impl,
                 notes := notes, deps := deps, tasks := tasks }
        | none => none
      | _, _, _, _, _ => none
    | _, _, _, _, _ => none
  | _ => none

/-- Modelled from the spec: the current `StateSchema` and the `valid: true`
half of validation.ts `validateState` (the current schema.ts is not in the
sources).  The document must be an object whose `version` equals the literal
1; `epics` is an array of Epics (defaulting to `[]` when absent); the
optional top-level `tasks` is an array of standalone Tasks.  `none` stands
for the `valid: false` outcome; no partial acceptance. -/
def validateState (raw : Json) : Option State :=
  match raw with
  | Json.obj fields =>
    match getField fields "version" with
    | some (Json.num 1) =>
      match (match getField fields "epics" with
             | none => some []
             | some (Json.arr elems) => parseEpicsWith parseEpic elems
             | some _ => none) with
      | some epics =>
        match (match getField fields "tasks" with
               | none => some none
               | some (Json.arr elems) => (parseTasksWith parseTask elems).map some
               | some _ => none) with
        | some tasks => some { version := 1, epics := epics, tasks := tasks }
        | none => none
      | none => none
    | _ => none
  | _ => none

/-- The `epics` array of a raw document (defaulting to `[]`), used to relate
counts in the accepted document to counts in the typed state. -/
def rawEpics (raw : Json) : List Json :=
  match raw with
  | Json.obj fields =>
    match getField fields "epics" with
    | some (Json.arr elems) => elems
    | _ => []
  | _ => []

/-- The top-level standalone `tasks` array of a raw document (default `[]`). -/
def rawStandaloneTasks (raw : Json) : List Json :=
  match raw with
  | Json.obj fields =>
    match getField fields "tasks" with
    | some (Json.arr elems) => elems
    | _ => []
  | _ => []

/-- The `tasks` array of a raw epic (default `[]`). -/
def rawTasksOf (j : Json) : List Json :=
  match j with
  | Json.obj fields =>
    match getField fields "tasks" with
    | some (Json.arr elems) => elems
    | _ => []
  | _ => []

/-- The `subtasks` array of a raw task (default `[]`). -/
def rawSubtasksOf (j : Json) : List Json :=
  match j with
  | Json.obj fields =>
    match getField fields "subtasks" with
    | some (Json.arr elems) => elems
    | _ => []
  | _ => []

/-- The `deps` field of a raw epic object, parsed as a string list (`none`
when the field is absent or the value is not a string array). -/
def rawDeps (j : Json) : Option (List String) :=
  match j with
  | Json.obj fields => (getField fields "deps").bind asStrList
  | _ => none

/-! ### Theorems -/

/-- Specification of the timestamp behaviour of one update (spec §4.2): the
update always refreshes `updated_at`, sets `completed_at` exactly when the
incoming status is `completed`, and otherwise keeps the previous
`completed_at` unchanged (never clears it). -/
def TimestampSpec (oldCompletedAt : Option String) (newUpdatedAt newCompletedAt : Option String)
    (input : UpdateItemInput) (now : String) : Prop :=
  newUpdatedAt = some now ∧
  (input.status = some Status.completed → newCompletedAt = some now) ∧
  (input.status ≠ some Status.completed → newCompletedAt = oldCompletedAt)

theorem applyUpdateEpic_timestampSpec (e : Epic) (input : UpdateItemInput) (now : String) :
    TimestampSpec e.completed_at (applyUpdateEpic e input now).updated_at
      (applyUpdateEpic e input now).completed_at input now := by
  refine ⟨rfl, ?_, ?_⟩ <;> intro h <;> simp [applyUpdateEpic, h]

theorem applyUpdateTask_timestampSpec (t : Task) (input : UpdateItemInput) (now : String) :
    TimestampSpec t.completed_at (applyUpdateTask t input now).updated_at
      (applyUpdateTask t input now).completed_at input now := by
  refine ⟨rfl, ?_, ?_⟩ <;> intro h <;> simp [applyUpdateTask, h]

theorem applyUpdateSubtask_timestampSpec (s : Subtask) (input : UpdateItemInput) (now : String) :
    TimestampSpec s.completed_at (applyUpdateSubtask s input now).updated_at
      (applyUpdateSubtask s input now).completed_at input now := by
  refine ⟨rfl, ?_, ?_⟩ <;> intro h <;> simp [applyUpdateSubtask, h]

theorem findEpic_some {s : State} {eid : String} {e : Epic} {i : Nat}
    (h : findEpic s eid = some (e, i)) : s.epics[i]? = some e := by
  unfold findEpic at h
  split at h
  · simp at h
  · split at h
    · simp at h
    · rename_i idx hidx ep hget
      simp only [Option.some.injEq, Prod.mk.injEq] at h
      rw [← h.1, ← h.2]
      exact hget

theorem findTask_some {s : State} {eid tid : String} {e : Epic} {i : Nat} {t : Task} {j : Nat}
    (h : findTask s eid tid = some (e, i, t, j)) :
    s.epics[i]? = some e ∧ e.tasks[j]? = some t := by
  unfold findTask at h
  split at h
  · simp at h
  · rename_i pr hfe
    split at h
    · simp at h
    · split at h
      · simp at h
      · rename_i idx hidx tk hget
        simp only [Option.some.injEq, Prod.mk.injEq] at h
        obtain ⟨he, hi, ht, hj⟩ := h
        subst he; subst hi; subst ht; subst hj
        exact ⟨findEpic_some hfe, hget⟩

theorem findSubtask_some {st : State} {eid tid sid : String} {e : Epic} {i : Nat}
    {t : Task} {j : Nat} {s : Subtask} {k : Nat}
    (h : findSubtask st eid tid sid = some (e, i, t, j, s, k)) :
    st.epics[i]? = some e ∧ e.tasks[j]? = some t ∧ t.subtasks[k]? = some s := by
  unfold findSubtask at h
  split at h
  · simp at h
  · rename_i pr hft
    split at h
    · simp at h
    · split at h
      · simp at h
      · rename_i idx hidx su hget
        simp only [Option.some.injEq, Prod.mk.injEq] at h
        obtain ⟨he, hi, ht, hj, hs, hk⟩ := h
        subst he; subst hi; subst ht; subst hj; subst hs; subst hk
        obtain ⟨h1, h2⟩ := findTask_some hft
        exact ⟨h1, h2, hget⟩

theorem findStandaloneTask_some {s : State} {tid : String} {t : Task} {i : Nat}
    (h : findStandaloneTask s tid = some (t, i)) : (s.tasks.getD [])[i]? = some t := by
  unfold findStandaloneTask at h
  dsimp only at h
  split at h
  · simp at h
  · split at h
    · simp at h
    · rename_i idx hidx tk hget
      simp only [Option.some.injEq, Prod.mk.injEq] at h
      rw [← h.1, ← h.2]
      exact hget

/-- C7: every successful update operation (updateEpic, updateTask,
updateSubtask, updateStandaloneTask, updateStandaloneSubtask) refreshes the
target's `updated_at` to the new timestamp, sets `completed_at` to the new
timestamp exactly when the input status is `completed`, and otherwise leaves
the previously stored `completed_at` untouched (it is never cleared). -/
theorem update_operations_timestampSpec :
    (∀ (s : State) (eid : String) (input : UpdateItemInput) (now : String) (s2 : State),
      updateEpic s eid input now = Except.ok s2 →
      ∃ i e, s.epics[i]? = some e ∧
        s2 = updateEpicInState s i (applyUpdateEpic e input now) ∧
        TimestampSpec e.completed_at (applyUpdateEpic e input now).updated_at
          (applyUpdateEpic e input now).completed_at input now) ∧
    (∀ (s : State) (eid tid : String) (input : UpdateItemInput) (now : String) (s2 : State),
      updateTask s eid tid input now = Except.ok s2 →
      ∃ i e j t, s.epics[i]? = some e ∧ e.tasks[j]? = some t ∧
        s2 = updateEpicInState s i
          (updateTaskInEpic e j (applyUpdateTask t input now) now) ∧
        TimestampSpec t.completed_at (applyUpdateTask t input now).updated_at
          (applyUpdateTask t input now).completed_at input now) ∧
    (∀ (s : State) (eid tid sid : String) (input : UpdateItemInput) (now : String) (s2 : State),
      updateSubtask s eid tid sid input now = Except.ok s2 →
      ∃ i e j t k su, s.epics[i]? = some e ∧ e.tasks[j]? = some t ∧
        t.subtasks[k]? = some su ∧
        s2 = updateEpicInState s i
          (updateTaskInEpic e j
            (updateSubtaskInTask t k (applyUpdateSubtask su input now) now) now) ∧
        TimestampSpec su.completed_at (applyUpdateSubtask su input now).updated_at
          (applyUpdateSubtask su input now).completed_at input now) ∧
    (∀ (s : State) (tid : String) (input : UpdateItemInput) (now : String) (s2 : State),
      updateStandaloneTask s tid input now = Except.ok s2 →
      ∃ i t, (s.tasks.getD [])[i]? = some t ∧
        s2 = updateStandaloneTaskInState s i (applyUpdateTask t input now) ∧
        TimestampSpec t.completed_at (applyUpdateTask t input now).updated_at
          (applyUpdateTask t input now).completed_at input now) ∧
    (∀ (s : State) (tid sid : String) (input : UpdateItemInput) (now : String) (s2 : State),
      updateStandaloneSubtask s tid sid input now = Except.ok s2 →
      ∃ i t k su, (s.tasks.getD [])[i]? = some t ∧ t.subtasks[k]? = some su ∧
        s2 = updateStandaloneTaskInState s i
          { t with subtasks := t.subtasks.set k (applyUpdateSubtask su input now),
                   updated_at := some now } ∧
        TimestampSpec su.completed_at (applyUpdateSubtask su input now).updated_at
          (applyUpdateSubtask su input now).completed_at input now) := by
  refine ⟨?_, ?_, ?_, ?_, ?_⟩
  · intro s eid input now s2 h
    unfold updateEpic at h
    rcases hfe : findEpic s eid with _ | ⟨e, i⟩
    · rw [hfe] at h; exact absurd h (by simp)
    · rw [hfe] at h
      simp only [Except.ok.injEq] at h
      exact ⟨i, e, findEpic_some hfe, h.symm, applyUpdateEpic_timestampSpec e input now⟩
  · intro s eid tid input now s2 h
    unfold updateTask at h
    rcases hft : findTask s eid tid with _ | ⟨e, i, t, j⟩
    · rw [hft] at h; exact absurd h (by simp)
    · rw [hft] at h
      simp only [Except.ok.injEq] at h
      obtain ⟨h1, h2⟩ := findTask_some hft
      exact ⟨i, e, j, t, h1, h2, h.symm, applyUpdateTask_timestampSpec t input now⟩
  · intro s eid tid sid input now s2 h
    unfold updateSubtask at h
    rcases hfs : findSubtask s eid tid sid with _ | ⟨e, i, t, j, su, k⟩
    · rw [hfs] at h; exact absurd h (by simp)
    · rw [hfs] at h
      simp only [Except.ok.injEq] at h
      obtain ⟨h1, h2, h3⟩ := findSubtask_some hfs
      exact ⟨i, e, j, t, k, su, h1, h2, h3, h.symm,
        applyUpdateSubtask_timestampSpec su input now⟩
  · intro s tid input now s2 h
    unfold updateStandaloneTask at h
    rcases hft : findStandaloneTask s tid with _ | ⟨t, i⟩
    · rw [hft] at h; exact absurd h (by simp)
    · rw [hft] at h
      simp only [Except.ok.injEq] at h
      exact ⟨i, t, findStandaloneTask_some hft, h.symm,
        applyUpdateTask_timestampSpec t input now⟩
  · intro s tid sid input now s2 h
    unfold updateStandaloneSubtask at h
    rcases hft : findStandaloneTask s tid with _ | ⟨t, i⟩
    · rw [hft] at h; exact absurd h (by simp)
    · rw [hft] at h
      dsimp only at h
      rcases hidx : t.subtasks.findIdx? (fun x => x.id == sid) with _ | k
      · rw [hidx] at h; simp at h
      · rw [hidx] at h
        dsimp only at h
        rcases hget : t.subtasks[k]? with _ | su
        · rw [hget] at h; simp at h
        · rw [hget] at h
          simp only [Except.ok.injEq] at h
          exact ⟨i, t, k, su, findStandaloneTask_some hft, hget, h.symm,
            applyUpdateSubtask_timestampSpec su input now⟩

/-- Witness for C7: a concrete successful `updateEpic` whose status input is
`in_progress` on an epic whose `completed_at` is already set; the theorem
yields that `updated_at` is refreshed and `completed_at` retained. -/
theorem update_operations_timestampSpec_witness :
    updateEpic
      { version := 1,
        epics := [{ id := "e1", content := "epic one content", priority := 2,
                    status := Status.completed, created_at := "2024-01-15T10:00:00.000Z",
                    completed_at := some "2024-01-16T10:00:00.000Z" }],
        tasks := none }
      "e1" { status := some Status.in_progress } "2024-01-17T10:00:00.000Z" =
      Except.ok
        { version := 1,
          epics := [{ id := "e1", content := "epic one content", priority := 2,
                      status := Status.in_progress,
                      created_at := "2024-01-15T10:00:00.000Z",
                      updated_at := some "2024-01-17T10:00:00.000Z",
                      completed_at := some "2024-01-16T10:00:00.000Z" }],
          tasks := none } ∧
    ∃ i e,
      (({ version := 1,
          epics := [{ id := "e1", content := "epic one content", priority := 2,
                      status := Status.completed, created_at := "2024-01-15T10:00:00.000Z",
                      completed_at := some "2024-01-16T10:00:00.000Z" }],
          tasks := none } : State)).epics[i]? = some e ∧
      ({ version := 1,
          epics := [{ id := "e1", content := "epic one content", priority := 2,
                      status := Status.in_progress,
                      created_at := "2024-01-15T10:00:00.000Z",
                      updated_at := some "2024-01-17T10:00:00.000Z",
                      completed_at := some "2024-01-16T10:00:00.000Z" }],
          tasks := none } : State) =
        updateEpicInState
          { version := 1,
            epics := [{ id := "e1", content := "epic one content", priority := 2,
                        status := Status.completed, created_at := "2024-01-15T10:00:00.000Z",
                        completed_at := some "2024-01-16T10:00:00.000Z" }],
            tasks := none } i
          (applyUpdateEpic e { status := some Status.in_progress }
            "2024-01-17T10:00:00.000Z") ∧
      TimestampSpec e.completed_at
        (applyUpdateEpic e { status := some Status.in_progress }
          "2024-01-17T10:00:00.000Z").updated_at
        (applyUpdateEpic e { status := some Status.in_progress }
          "2024-01-17T10:00:00.000Z").completed_at
        { status := some Status.in_progress } "2024-01-17T10:00:00.000Z" :=
  ⟨rfl, update_operations_timestampSpec.1 _ "e1" _ "2024-01-17T10:00:00.000Z" _ rfl⟩

/-- The actionable items of the spec's getNext pipeline: flattened items with
status pending or in_progress. -/
def actionableItems (s : State) : List FlatItem :=
  (flattenState s).filter (fun item =>
    item.status == Status.pending || item.status == Status.in_progress)

/-- The actionable items restricted to the requested level (unrestricted for
`any`). -/
def levelFiltered (s : State) (level : Level) : List FlatItem :=
  if level == Level.any then actionableItems s
  else (actionableItems s).filter (fun item => typeMatchesLevel item.type level)

/-- The ready items of the spec's getNext pipeline: actionable, level-matching
items whose deps are all satisfied. -/
def readyItems (s : State) (level : Level) : List FlatItem :=
  (levelFiltered s level).filter (fun item => areDepsComplete item (flattenState s))

/-- Spec-side selection: the first element, in original document order, that
is minimal with respect to the comparator; this is exactly the head of the
list sorted by priority ascending (tie-broken by depth descending when the
comparator says so), with equal elements kept in document order. -/
def firstMin (cmp : FlatItem → FlatItem → Int) : List FlatItem → Option FlatItem
  | [] => none
  | x :: xs =>
    match firstMin cmp xs with
    | none => some x
    | some b => if cmp b x < 0 then some b else some x

theorem nextCmp_neg (level : Level) (a b : FlatItem) :
    nextCmp level a b = -(nextCmp level b a) := by
  unfold nextCmp
  by_cases h : a.priority = b.priority
  · by_cases hl : level = Level.any <;> simp [h, hl]
  · simp [h, Ne.symm h]

theorem head_cmpInsert (cmp : FlatItem → FlatItem → Int) (x : FlatItem) (l : List FlatItem) :
    (cmpInsert cmp x l).head? =
      some (match l.head? with
            | none => x
            | some h => if cmp x h ≤ 0 then x else h) := by
  cases l with
  | nil => rfl
  | cons y ys =>
    unfold cmpInsert
    by_cases hc : cmp x y ≤ 0
    · simp [hc]
    · simp [hc]

theorem head_jsSort (cmp : FlatItem → FlatItem → Int)
    (hneg : ∀ a b, cmp a b = -(cmp b a)) (l : List FlatItem) :
    (jsSort cmp l).head? = firstMin cmp l := by
  induction l with
  | nil => rfl
  | cons x xs ih =>
    unfold jsSort firstMin
    rw [head_cmpInsert, ih]
    cases hfm : firstMin cmp xs with
    | none => simp
    | some b =>
      simp only
      by_cases hc : cmp x b ≤ 0
      · have : ¬ cmp b x < 0 := by rw [hneg b x]; omega
        simp [hc, this]
      · have : cmp b x < 0 := by rw [hneg b x]; omega
        simp [hc, this]

theorem firstMin_eq_none_iff (cmp : FlatItem → FlatItem → Int) (l : List FlatItem) :
    firstMin cmp l = none ↔ l = [] := by
  cases l with
  | nil => simp [firstMin]
  | cons x xs =>
    simp only [firstMin]
    constructor
    · intro h
      exfalso
      cases hfm : firstMin cmp xs with
      | none => rw [hfm] at h; simp at h
      | some b => rw [hfm] at h; by_cases hc : cmp b x < 0 <;> simp [hc] at h
    · intro h; exact absurd h (by simp)

theorem countP_not_filter (p : FlatItem → Bool) (l : List FlatItem) :
    l.length - (l.filter p).length = l.countP (fun a => !(p a)) := by
  induction l with
  | nil => rfl
  | cons x xs ih =>
    have hle : (xs.filter p).length ≤ xs.length := xs.length_filter_le p
    by_cases hp : p x = true
    · simp [List.filter_cons, hp, List.countP_cons] at ih ⊢
      omega
    · have hp2 : p x = false := by simp_all
      simp [List.filter_cons, hp2, List.countP_cons] at ih ⊢
      omega

/-- C3: `getNext` returns as `item` the first (in document order) of the ready
items sorted by priority ascending, ties broken by depth descending exactly
when no level filter is given; `queueDepth` is the number of ready items;
`blockedByDeps` counts the actionable level-matching items excluded only
because their deps are unmet; and `item` is null exactly when no ready item
exists. -/
theorem getNext_spec (s : State) (level : Level) :
    (getNext s level).item = firstMin (nextCmp level) (readyItems s level) ∧
    (getNext s level).queueDepth = (readyItems s level).length ∧
    (getNext s level).blockedByDeps =
      (levelFiltered s level).countP (fun i => !(areDepsComplete i (flattenState s))) ∧
    ((getNext s level).item = none ↔ readyItems s level = []) := by
  have hitem : (getNext s level).item =
      (jsSort (nextCmp level) (readyItems s level)).head? := rfl
  have hready : (getNext s level).queueDepth = (readyItems s level).length := rfl
  have hblocked : (getNext s level).blockedByDeps =
      (levelFiltered s level).length - (readyItems s level).length := rfl
  refine ⟨?_, hready, ?_, ?_⟩
  · rw [hitem]
    exact head_jsSort (nextCmp level) (nextCmp_neg level) (readyItems s level)
  · rw [hblocked]
    exact countP_not_filter _ (levelFiltered s level)
  · rw [hitem, head_jsSort (nextCmp level) (nextCmp_neg level) (readyItems s level)]
    exact firstMin_eq_none_iff _ _

/-- The flat items contributed by one epic-owned task. -/
def taskBlock (epic : Epic) (task : Task) : List FlatItem :=
  flattenTask (some epic) task ::
    task.subtasks.map (fun subtask => flattenSubtask (some epic) task subtask)

/-- The flat items contributed by one epic. -/
def epicBlock (epic : Epic) : List FlatItem :=
  flattenEpic epic :: epic.tasks.flatMap (taskBlock epic)

/-- The flat items contributed by one standalone task. -/
def standaloneBlock (task : Task) : List FlatItem :=
  flattenTask none task ::
    task.subtasks.map (fun subtask => flattenSubtask none task subtask)

theorem flattenState_eq_blocks (s : State) :
    flattenState s =
      s.epics.flatMap epicBlock ++ (s.tasks.getD []).flatMap standaloneBlock := rfl

theorem length_filter_flatMap {α : Type} (p : FlatItem → Bool) (f : α → List FlatItem) :
    ∀ l : List α,
      (((l.flatMap f).filter p)).length = (l.map (fun x => ((f x).filter p).length)).sum := by
  intro l
  induction l with
  | nil => rfl
  | cons x xs ih =>
    simp only [List.flatMap_cons, List.filter_append, List.length_append, List.map_cons,
      List.sum_cons, ih]

theorem sum_map_one {α : Type} (l : List α) : (l.map (fun _ => 1)).sum = l.length := by
  induction l with
  | nil => rfl
  | cons x xs ih => simp [ih]; omega

theorem taskBlock_filter_epic (e : Epic) (t : Task) :
    ((taskBlock e t).filter (fun i => i.type == ItemType.epic)).length = 0 := by
  simp [taskBlock, flattenTask, flattenSubtask, List.filter_map, Function.comp_def]

theorem taskBlock_filter_task (e : Epic) (t : Task) :
    ((taskBlock e t).filter (fun i => i.type == ItemType.task)).length = 1 := by
  simp [taskBlock, flattenTask, flattenSubtask, List.filter_map, Function.comp_def]

theorem taskBlock_filter_subtask (e : Epic) (t : Task) :
    ((taskBlock e t).filter (fun i => i.type == ItemType.subtask)).length =
      t.subtasks.length := by
  simp [taskBlock, flattenTask, flattenSubtask, List.filter_map, Function.comp_def]

theorem epicBlock_filter_epic (e : Epic) :
    ((epicBlock e).filter (fun i => i.type == ItemType.epic)).length = 1 := by
  simp only [epicBlock, List.filter_cons, flattenEpic]
  simp only [show ((ItemType.epic == ItemType.epic) = true) from rfl, if_true]
  simp [length_filter_flatMap, taskBlock_filter_epic]

theorem epicBlock_filter_task (e : Epic) :
    ((epicBlock e).filter (fun i => i.type == ItemType.task)).length = e.tasks.length := by
  simp only [epicBlock, List.filter_cons, flattenEpic]
  simp only [show ((ItemType.epic == ItemType.task) = false) from rfl]
  simp [length_filter_flatMap, taskBlock_filter_task, sum_map_one]

theorem epicBlock_filter_subtask (e : Epic) :
    ((epicBlock e).filter (fun i => i.type == ItemType.subtask)).length =
      (e.tasks.map (fun t => t.subtasks.length)).sum := by
  simp only [epicBlock, List.filter_cons, flattenEpic]
  simp only [show ((ItemType.epic == ItemType.subtask) = false) from rfl]
  simp [length_filter_flatMap, taskBlock_filter_subtask]

theorem standaloneBlock_filter_epic (t : Task) :
    ((standaloneBlock t).filter (fun i => i.type == ItemType.epic)).length = 0 := by
  simp [standaloneBlock, flattenTask, flattenSubtask, List.filter_map, Function.comp_def]

theorem standaloneBlock_filter_task (t : Task) :
    ((standaloneBlock t).filter (fun i => i.type == ItemType.task)).length = 1 := by
  simp [standaloneBlock, flattenTask, flattenSubtask, List.filter_map, Function.comp_def]

theorem standaloneBlock_filter_subtask (t : Task) :
    ((standaloneBlock t).filter (fun i => i.type == ItemType.subtask)).length =
      t.subtasks.length := by
  simp [standaloneBlock, flattenTask, flattenSubtask, List.filter_map, Function.comp_def]

theorem flattenState_count_epic (s : State) :
    ((flattenState s).filter (fun i => i.type == ItemType.epic)).length = s.epics.length := by
  rw [flattenState_eq_blocks]
  simp only [List.filter_append, List.length_append, length_filter_flatMap]
  simp [epicBlock_filter_epic, standaloneBlock_filter_epic, sum_map_one]

theorem flattenState_count_task (s : State) :
    ((flattenState s).filter (fun i => i.type == ItemType.task)).length =
      (s.epics.map (fun e => e.tasks.length)).sum + (s.tasks.getD []).length := by
  rw [flattenState_eq_blocks]
  simp only [List.filter_append, List.length_append, length_filter_flatMap]
  simp [epicBlock_filter_task, standaloneBlock_filter_task, sum_map_one]

theorem flattenState_count_subtask (s : State) :
    ((flattenState s).filter (fun i => i.type == ItemType.subtask)).length =
      (s.epics.map (fun e => (e.tasks.map (fun t => t.subtasks.length)).sum)).sum
        + ((s.tasks.getD []).map (fun t => t.subtasks.length)).sum := by
  rw [flattenState_eq_blocks]
  simp only [List.filter_append, List.length_append, length_filter_flatMap]
  simp [epicBlock_filter_subtask, standaloneBlock_filter_subtask]

theorem length_eq_sum_three_filters : ∀ l : List FlatItem,
    l.length = ((l.filter (fun i => i.type == ItemType.epic)).length)
      + ((l.filter (fun i => i.type == ItemType.task)).length)
      + ((l.filter (fun i => i.type == ItemType.subtask)).length) := by
  intro l
  induction l with
  | nil => rfl
  | cons x xs ih =>
    cases hx : x.type <;>
      simp only [List.length_cons, List.filter_cons, hx] <;> simp <;> omega

theorem parseSubtasksWith_length :
    ∀ {js : List Json} {ss : List Subtask},
      parseSubtasksWith parseSubtask js = some ss → ss.length = js.length := by
  intro js
  induction js with
  | nil => intro ss h; simp only [parseSubtasksWith] at h; simp [← Option.some_inj.mp h]
  | cons j rest ih =>
    intro ss h
    simp only [parseSubtasksWith] at h
    split at h
    · rename_i s ss2 hj hrest
      rw [← Option.some_inj.mp h]
      simp [ih hrest]
    · simp at h

theorem parseTask_subtasks_length {j : Json} {t : Task} (h : parseTask j = some t) :
    t.subtasks.length = (rawSubtasksOf j).length := by
  unfold parseTask at h
  split at h
  case h_2 => simp at h
  case h_1 fields =>
    split at h
    case h_2 => simp at h
    case h_1 id content priority status created_at h5 =>
      split at h
      case h_2 => simp at h
      case h_1 ua ca impl nts dps h5b =>
        split at h
        case h_2 => simp at h
        case h_1 subtasks heq =>
          split at heq
          · simp only [Option.some_inj] at heq
            rw [← Option.some_inj.mp h, ← heq]
            rename_i hget
            simp [rawSubtasksOf, hget]
          · rename_i elems hget
            rw [← Option.some_inj.mp h]
            simp only [rawSubtasksOf, hget]
            exact parseSubtasksWith_length heq
          · simp at heq

theorem parseTasksWith_counts :
    ∀ {js : List Json} {ts : List Task},
      parseTasksWith parseTask js = some ts →
      ts.length = js.length ∧
        (ts.map (fun t => t.subtasks.length)).sum =
          (js.map (fun j => (rawSubtasksOf j).length)).sum := by
  intro js
  induction js with
  | nil =>
    intro ts h; simp only [parseTasksWith] at h
    rw [← Option.some_inj.mp h]; simp
  | cons j rest ih =>
    intro ts h
    simp only [parseTasksWith] at h
    split at h
    · rename_i t ts2 hj hrest
      rw [← Option.some_inj.mp h]
      obtain ⟨h1, h2⟩ := ih hrest
      simp [h1, h2, parseTask_subtasks_length hj]
    · simp at h

theorem parseEpic_tasks_counts {j : Json} {e : Epic} (h : parseEpic j = some e) :
    e.tasks.length = (rawTasksOf j).length ∧
      (e.tasks.map (fun t => t.subtasks.length)).sum =
        ((rawTasksOf j).map (fun t => (rawSubtasksOf t).length)).sum := by
  unfold parseEpic at h
  split at h
  case h_2 => simp at h
  case h_1 fields =>
    split at h
    case h_2 => simp at h
    case h_1 id content priority status created_at h5 =>
      split at h
      case h_2 => simp at h
      case h_1 ua ca impl nts dps h5b =>
        split at h
        case h_2 => simp at h
        case h_1 tasks heq =>
          split at heq
          · simp only [Option.some_inj] at heq
            rw [← Option.some_inj.mp h, ← heq]
            rename_i hget
            simp [rawTasksOf, hget]
          · rename_i elems hget
            rw [← Option.some_inj.mp h]
            simp only [rawTasksOf, hget]
            exact parseTasksWith_counts heq
          · simp at heq

theorem parseEpicsWith_counts :
    ∀ {js : List Json} {es : List Epic},
      parseEpicsWith parseEpic js = some es →
      es.length = js.length ∧
        (es.map (fun e => e.tasks.length)).sum =
          (js.map (fun j => (rawTasksOf j).length)).sum ∧
        (es.map (fun e => (e.tasks.map (fun t => t.subtasks.length)).sum)).sum =
          (js.map (fun j => ((rawTasksOf j).map (fun t => (rawSubtasksOf t).length)).sum)).sum := by
  intro js
  induction js with
  | nil =>
    intro es h; simp only [parseEpicsWith] at h
    rw [← Option.some_inj.mp h]; simp
  | cons j rest ih =>
    intro es h
    simp only [parseEpicsWith] at h
    split at h
    · rename_i e es2 hj hrest
      rw [← Option.some_inj.mp h]
      obtain ⟨h1, h2, h3⟩ := ih hrest
      obtain ⟨g1, g2⟩ := parseEpic_tasks_counts hj
      simp [h1, h2, h3, g1, g2]
    · simp at h

theorem validateState_counts {raw : Json} {st : State} (h : validateState raw = some st) :
    st.epics.length = (rawEpics raw).length ∧
      (st.epics.map (fun e => e.tasks.length)).sum =
        ((rawEpics raw).map (fun j => (rawTasksOf j).length)).sum ∧
      (st.epics.map (fun e => (e.tasks.map (fun t => t.subtasks.length)).sum)).sum =
        ((rawEpics raw).map
          (fun j => ((rawTasksOf j).map (fun t => (rawSubtasksOf t).length)).sum)).sum ∧
      (st.tasks.getD []).length = (rawStandaloneTasks raw).length ∧
      ((st.tasks.getD []).map (fun t => t.subtasks.length)).sum =
        ((rawStandaloneTasks raw).map (fun t => (rawSubtasksOf t).length)).sum := by
  unfold validateState at h
  split at h
  case h_2 => simp at h
  case h_1 fields =>
    split at h
    case h_2 => simp at h
    case h_1 hver =>
      split at h
      case h_2 => simp at h
      case h_1 epics heqE =>
        split at h
        case h_2 => simp at h
        case h_1 tasks heqT =>
          have hst := Option.some_inj.mp h
          subst hst
          have hepics :
              epics.length = (rawEpics (Json.obj fields)).length ∧
              (epics.map (fun e => e.tasks.length)).sum =
                ((rawEpics (Json.obj fields)).map (fun j => (rawTasksOf j).length)).sum ∧
              (epics.map (fun e => (e.tasks.map (fun t => t.subtasks.length)).sum)).sum =
                ((rawEpics (Json.obj fields)).map
                  (fun j => ((rawTasksOf j).map (fun t => (rawSubtasksOf t).length)).sum)).sum := by
            split at heqE
            · rename_i hget
              simp only [Option.some_inj] at heqE
              rw [← heqE]
              simp [rawEpics, hget]
            · rename_i elems hget
              simp only [rawEpics, hget]
              exact parseEpicsWith_counts heqE
            · simp at heqE
          have htasks :
              (tasks.getD []).length = (rawStandaloneTasks (Json.obj fields)).length ∧
              ((tasks.getD []).map (fun t => t.subtasks.length)).sum =
                ((rawStandaloneTasks (Json.obj fields)).map
                  (fun t => (rawSubtasksOf t).length)).sum := by
            split at heqT
            · rename_i hget
              simp only [Option.some_inj] at heqT
              rw [← heqT]
              simp [rawStandaloneTasks, hget]
            · rename_i elems hget
              cases hpt : parseTasksWith parseTask elems with
              | none => rw [hpt] at heqT; simp at heqT
              | some ts =>
                rw [hpt] at heqT
                simp only [Option.map_some', Option.some_inj] at heqT
                rw [← heqT]
                simp only [rawStandaloneTasks, hget, Option.getD_some]
                exact parseTasksWith_counts hpt
            · simp at heqT
          exact ⟨hepics.1, hepics.2.1, hepics.2.2, htasks.1, htasks.2⟩

/-- C1: for every raw document accepted by validateState, flattening the
returned state yields exactly one FlatItem per Epic, one per Task (nested or
standalone) and one per Subtask of the original document, and the counts
partitioned by item type sum to the total number of FlatItems. -/
theorem validate_then_flatten_counts (raw : Json) (st : State)
    (h : validateState raw = some st) :
    ((flattenState st).filter (fun i => i.type == ItemType.epic)).length
        = (rawEpics raw).length ∧
    ((flattenState st).filter (fun i => i.type == ItemType.task)).length
        = ((rawEpics raw).map (fun e => (rawTasksOf e).length)).sum
          + (rawStandaloneTasks raw).length ∧
    ((flattenState st).filter (fun i => i.type == ItemType.subtask)).length
        = ((rawEpics raw).map
            (fun e => ((rawTasksOf e).map (fun t => (rawSubtasksOf t).length)).sum)).sum
          + ((rawStandaloneTasks raw).map (fun t => (rawSubtasksOf t).length)).sum ∧
    (flattenState st).length
        = ((flattenState st).filter (fun i => i.type == ItemType.epic)).length
          + ((flattenState st).filter (fun i => i.type == ItemType.task)).length
          + ((flattenState st).filter (fun i => i.type == ItemType.subtask)).length := by
  obtain ⟨c1, c2, c3, c4, c5⟩ := validateState_counts h
  refine ⟨?_, ?_, ?_, length_eq_sum_three_filters _⟩
  · rw [flattenState_count_epic, c1]
  · rw [flattenState_count_task, c2, c4]
  · rw [flattenState_count_subtask, c3, c5]

/-- A concrete document with one epic holding one task with one subtask, plus
one standalone task with one subtask, used as the C1 witness input. -/
def c1doc : Json :=
  Json.obj
    [("version", Json.num 1),
     ("epics", Json.arr
       [Json.obj
         [("id", Json.str "e1"), ("content", Json.str "epic one content"),
          ("priority", Json.num 1), ("created_at", Json.str "2024-01-15T10:00:00.000Z"),
          ("tasks", Json.arr
            [Json.obj
              [("id", Json.str "t1"), ("content", Json.str "task one content"),
               ("priority", Json.num 2), ("created_at", Json.str "2024-01-15T10:00:00.000Z"),
               ("subtasks", Json.arr
                 [Json.obj
                   [("id", Json.str "s1"), ("content", Json.str "sub one content"),
                    ("priority", Json.num 3),
                    ("created_at", Json.str "2024-01-15T10:00:00.000Z")]])]])]]),
     ("tasks", Json.arr
       [Json.obj
         [("id", Json.str "t9"), ("content", Json.str "standalone task one"),
          ("priority", Json.num 2), ("created_at", Json.str "2024-01-15T10:00:00.000Z"),
          ("subtasks", Json.arr
            [Json.obj
              [("id", Json.str "s9"), ("content", Json.str "standalone sub one"),
               ("priority", Json.num 2),
               ("created_at", Json.str "2024-01-15T10:00:00.000Z")]])]])]

/-- The typed state the validator returns for `c1doc`. -/
def c1state : State :=
  { version := 1,
    epics :=
      [{ id := "e1", content := "epic one content", priority := 1,
         status := Status.pending, created_at := "2024-01-15T10:00:00.000Z",
         tasks :=
           [{ id := "t1", content := "task one content", priority := 2,
              status := Status.pending, created_at := "2024-01-15T10:00:00.000Z",
              subtasks :=
                [{ id := "s1", content := "sub one content", priority := 3,
                   status := Status.pending,
                   created_at := "2024-01-15T10:00:00.000Z" }] }] }],
    tasks := some
      [{ id := "t9", content := "standalone task one", priority := 2,
         status := Status.pending, created_at := "2024-01-15T10:00:00.000Z",
         subtasks :=
           [{ id := "s9", content := "standalone sub one", priority := 2,
              status := Status.pending,
              created_at := "2024-01-15T10:00:00.000Z" }] }] }

/-- Witness for C1: the validator accepts `c1doc`, and the flatten counts are
exactly 1 epic, 2 tasks, 2 subtasks, summing to the 5 items. -/
theorem validate_then_flatten_counts_witness :
    validateState c1doc = some c1state ∧
    (((flattenState c1state).filter (fun i => i.type == ItemType.epic)).length
        = (rawEpics c1doc).length ∧
     ((flattenState c1state).filter (fun i => i.type == ItemType.task)).length
        = ((rawEpics c1doc).map (fun e => (rawTasksOf e).length)).sum
          + (rawStandaloneTasks c1doc).length ∧
     ((flattenState c1state).filter (fun i => i.type == ItemType.subtask)).length
        = ((rawEpics c1doc).map
            (fun e => ((rawTasksOf e).map (fun t => (rawSubtasksOf t).length)).sum)).sum
          + ((rawStandaloneTasks c1doc).map (fun t => (rawSubtasksOf t).length)).sum ∧
     (flattenState c1state).length
        = ((flattenState c1state).filter (fun i => i.type == ItemType.epic)).length
          + ((flattenState c1state).filter (fun i => i.type == ItemType.task)).length
          + ((flattenState c1state).filter (fun i => i.type == ItemType.subtask)).length) :=
  ⟨rfl, validate_then_flatten_counts c1doc c1state rfl⟩

theorem parseOptStrList_eq {fields : List (String × Json)} {k : String}
    {v : Option (List String)} (h : parseOptStrList fields k = some v) :
    v = (getField fields k).bind asStrList := by
  unfold parseOptStrList at h
  split at h
  · rename_i hget
    rw [hget]
    exact (Option.some_inj.mp h).symm
  · rename_i j hget
    rw [hget]
    cases ha : asStrList j with
    | none => rw [ha] at h; simp at h
    | some l =>
      rw [ha] at h
      simp only [Option.map_some', Option.some_inj] at h
      rw [← h]
      simp [ha]

theorem parseEpic_deps {j : Json} {e : Epic} (h : parseEpic j = some e) :
    e.deps = rawDeps j := by
  unfold parseEpic at h
  split at h
  case h_2 => simp at h
  case h_1 fields =>
    split at h
    case h_2 => simp at h
    case h_1 id content priority status created_at h5 =>
      split at h
      case h_2 => simp at h
      case h_1 ua ca impl nts dps hu hc hi hn hd =>
        split at h
        case h_2 => simp at h
        case h_1 tasks heq =>
          rw [← Option.some_inj.mp h]
          simp only [rawDeps]
          exact parseOptStrList_eq hd

theorem parseEpicsWith_deps :
    ∀ {js : List Json} {es : List Epic},
      parseEpicsWith parseEpic js = some es →
      ∀ i : Nat, es[i]?.map Epic.deps = js[i]?.map rawDeps := by
  intro js
  induction js with
  | nil =>
    intro es h i
    simp only [parseEpicsWith] at h
    rw [← Option.some_inj.mp h]
    simp
  | cons j rest ih =>
    intro es h i
    simp only [parseEpicsWith] at h
    split at h
    · rename_i e es2 hj hrest
      rw [← Option.some_inj.mp h]
      cases i with
      | zero => simpa using parseEpic_deps hj
      | succ n => simpa using ih hrest n
    · simp at h

theorem validateState_epic_deps {raw : Json} {st : State}
    (h : validateState raw = some st) :
    ∀ i : Nat, st.epics[i]?.map Epic.deps = (rawEpics raw)[i]?.map rawDeps := by
  unfold validateState at h
  split at h
  case h_2 => simp at h
  case h_1 fields =>
    split at h
    case h_2 => simp at h
    case h_1 hver =>
      split at h
      case h_2 => simp at h
      case h_1 epics heqE =>
        split at h
        case h_2 => simp at h
        case h_1 tasks heqT =>
          have hst := Option.some_inj.mp h
          subst hst
          intro i
          split at heqE
          · rename_i hget
            simp only [Option.some_inj] at heqE
            rw [← heqE]
            simp [rawEpics, hget]
          · rename_i elems hget
            simp only [rawEpics, hget]
            exact parseEpicsWith_deps heqE i
          · simp at heqE

/-- Modelled from the spec: the shared field-level invariants of §3 on one
entity's fields (nonempty id, content of at least 10 characters, priority in
1-5, status an enum member or absent, ISO-formatted timestamps, optional
string-array notes and deps, optional implementation description), stated as
the success of the individual field checks. -/
def wellFormedCommonFields (fields : List (String × Json)) : Bool :=
  (parseId fields).isSome && (parseContent fields).isSome &&
  (parsePriority fields).isSome && (parseStatus fields).isSome &&
  (parseCreatedAt fields).isSome &&
  (parseOptTimestamp fields "updated_at").isSome &&
  (parseOptTimestamp fields "completed_at").isSome &&
  (parseOptStr fields "implementation_description").isSome &&
  (parseOptStrList fields "notes").isSome &&
  (parseOptStrList fields "deps").isSome

/-- Modelled from the spec: a raw Subtask satisfying the §3 field-level
invariants. -/
def wellFormedSubtask : Json → Bool
  | Json.obj fields => wellFormedCommonFields fields
  | _ => false

/-- Modelled from the spec: a raw Task satisfying the §3 field-level
invariants, with well-formed subtasks. -/
def wellFormedTask : Json → Bool
  | Json.obj fields =>
    wellFormedCommonFields fields &&
    (match getField fields "subtasks" with
     | none => true
     | some (Json.arr elems) => elems.all wellFormedSubtask
     | some _ => false)
  | _ => false

/-- Modelled from the spec: a raw Epic satisfying the §3 field-level
invariants, with well-formed tasks. -/
def wellFormedEpic : Json → Bool
  | Json.obj fields =>
    wellFormedCommonFields fields &&
    (match getField fields "tasks" with
     | none => true
     | some (Json.arr elems) => elems.all wellFormedTask
     | some _ => false)
  | _ => false

/-- Modelled from the spec: a raw document satisfying the §3 field-level
invariants (version literal 1, well-formed epics, optional well-formed
standalone tasks). -/
def wellFormedDoc : Json → Bool
  | Json.obj fields =>
    (match getField fields "version" with
     | some (Json.num 1) => true
     | _ => false) &&
    (match getField fields "epics" with
     | none => true
     | some (Json.arr elems) => elems.all wellFormedEpic
     | some _ => false) &&
    (match getField fields "tasks" with
     | none => true
     | some (Json.arr elems) => elems.all wellFormedTask
     | some _ => false)
  | _ => false

theorem parseSubtask_isSome {j : Json} (h : wellFormedSubtask j = true) :
    (parseSubtask j).isSome := by
  cases j
  case obj fields =>
    simp only [wellFormedSubtask, wellFormedCommonFields, Bool.and_eq_true] at h
    obtain ⟨⟨⟨⟨⟨⟨⟨⟨⟨h1, h2⟩, h3⟩, h4⟩, h5⟩, h6⟩, h7⟩, h8⟩, h9⟩, h10⟩ := h
    rw [Option.isSome_iff_exists] at h1 h2 h3 h4 h5 h6 h7 h8 h9 h10
    obtain ⟨id, hid⟩ := h1
    obtain ⟨content, hcontent⟩ := h2
    obtain ⟨priority, hpriority⟩ := h3
    obtain ⟨status, hstatus⟩ := h4
    obtain ⟨created, hcreated⟩ := h5
    obtain ⟨ua, hua⟩ := h6
    obtain ⟨ca, hca⟩ := h7
    obtain ⟨impl, himpl⟩ := h8
    obtain ⟨nts, hnts⟩ := h9
    obtain ⟨dps, hdps⟩ := h10
    simp [parseSubtask, hid, hcontent, hpriority, hstatus, hcreated, hua, hca, himpl,
      hnts, hdps]
  all_goals simp [wellFormedSubtask] at h

theorem parseSubtasksWith_isSome :
    ∀ {js : List Json}, js.all wellFormedSubtask = true →
      (parseSubtasksWith parseSubtask js).isSome := by
  intro js
  induction js with
  | nil => intro h; simp [parseSubtasksWith]
  | cons j rest ih =>
    intro h
    simp only [List.all_cons, Bool.and_eq_true] at h
    obtain ⟨hj, hrest⟩ := h
    have h1 := parseSubtask_isSome hj
    have h2 := ih hrest
    rw [Option.isSome_iff_exists] at h1 h2
    obtain ⟨s, hs⟩ := h1
    obtain ⟨ss, hss⟩ := h2
    simp [parseSubtasksWith, hs, hss]

theorem parseTask_isSome {j : Json} (h : wellFormedTask j = true) :
    (parseTask j).isSome := by
  cases j
  case obj fields =>
    simp only [wellFormedTask, Bool.and_eq_true] at h
    obtain ⟨hc, hsubs⟩ := h
    simp only [wellFormedCommonFields, Bool.and_eq_true] at hc
    obtain ⟨⟨⟨⟨⟨⟨⟨⟨⟨h1, h2⟩, h3⟩, h4⟩, h5⟩, h6⟩, h7⟩, h8⟩, h9⟩, h10⟩ := hc
    rw [Option.isSome_iff_exists] at h1 h2 h3 h4 h5 h6 h7 h8 h9 h10
    obtain ⟨id, hid⟩ := h1
    obtain ⟨content, hcontent⟩ := h2
    obtain ⟨priority, hpriority⟩ := h3
    obtain ⟨status, hstatus⟩ := h4
    obtain ⟨created, hcreated⟩ := h5
    obtain ⟨ua, hua⟩ := h6
    obtain ⟨ca, hca⟩ := h7
    obtain ⟨impl, himpl⟩ := h8
    obtain ⟨nts, hnts⟩ := h9
    obtain ⟨dps, hdps⟩ := h10
    have hsome : (match getField fields "subtasks" with
        | none => some ([] : List Subtask)
        | some (Json.arr elems) => parseSubtasksWith parseSubtask elems
        | some _ => none).isSome := by
      split at hsubs
      · rename_i hget; simp [hget]
      · rename_i elems hget
        exact parseSubtasksWith_isSome hsubs
      · simp at hsubs
    rw [Option.isSome_iff_exists] at hsome
    obtain ⟨subs, hsubsEq⟩ := hsome
    simp [parseTask, hid, hcontent, hpriority, hstatus, hcreated, hua, hca, himpl,
      hnts, hdps, hsubsEq]
  all_goals simp [wellFormedTask] at h

theorem parseTasksWith_isSome :
    ∀ {js : List Json}, js.all wellFormedTask = true →
      (parseTasksWith parseTask js).isSome := by
  intro js
  induction js with
  | nil => intro h; simp [parseTasksWith]
  | cons j rest ih =>
    intro h
    simp only [List.all_cons, Bool.and_eq_true] at h
    obtain ⟨hj, hrest⟩ := h
    have h1 := parseTask_isSome hj
    have h2 := ih hrest
    rw [Option.isSome_iff_exists] at h1 h2
    obtain ⟨t, ht⟩ := h1
    obtain ⟨ts, hts⟩ := h2
    simp [parseTasksWith, ht, hts]

theorem parseEpic_isSome {j : Json} (h : wellFormedEpic j = true) :
    (parseEpic j).isSome := by
  cases j
  case obj fields =>
    simp only [wellFormedEpic, Bool.and_eq_true] at h
    obtain ⟨hc, htasks⟩ := h
    simp only [wellFormedCommonFields, Bool.and_eq_true] at hc
    obtain ⟨⟨⟨⟨⟨⟨⟨⟨⟨h1, h2⟩, h3⟩, h4⟩, h5⟩, h6⟩, h7⟩, h8⟩, h9⟩, h10⟩ := hc
    rw [Option.isSome_iff_exists] at h1 h2 h3 h4 h5 h6 h7 h8 h9 h10
    obtain ⟨id, hid⟩ := h1
    obtain ⟨content, hcontent⟩ := h2
    obtain ⟨priority, hpriority⟩ := h3
    obtain ⟨status, hstatus⟩ := h4
    obtain ⟨created, hcreated⟩ := h5
    obtain ⟨ua, hua⟩ := h6
    obtain ⟨ca, hca⟩ := h7
    obtain ⟨impl, himpl⟩ := h8
    obtain ⟨nts, hnts⟩ := h9
    obtain ⟨dps, hdps⟩ := h10
    have hsome : (match getField fields "tasks" with
        | none => some ([] : List Task)
        | some (Json.arr elems) => parseTasksWith parseTask elems
        | some _ => none).isSome := by
      split at htasks
      · rename_i hget; simp [hget]
      · rename_i elems hget
        exact parseTasksWith_isSome htasks
      · simp at htasks
    rw [Option.isSome_iff_exists] at hsome
    obtain ⟨tasks, htasksEq⟩ := hsome
    simp [parseEpic, hid, hcontent, hpriority, hstatus, hcreated, hua, hca, himpl,
      hnts, hdps, htasksEq]
  all_goals simp [wellFormedEpic] at h

theorem parseEpicsWith_isSome :
    ∀ {js : List Json}, js.all wellFormedEpic = true →
      (parseEpicsWith parseEpic js).isSome := by
  intro js
  induction js with
  | nil => intro h; simp [parseEpicsWith]
  | cons j rest ih =>
    intro h
    simp only [List.all_cons, Bool.and_eq_true] at h
    obtain ⟨hj, hrest⟩ := h
    have h1 := parseEpic_isSome hj
    have h2 := ih hrest
    rw [Option.isSome_iff_exists] at h1 h2
    obtain ⟨e, he⟩ := h1
    obtain ⟨es, hes⟩ := h2
    simp [parseEpicsWith, he, hes]

/-- C2: a document satisfying the §3 field-level invariants is accepted by
validateState (`valid: true`), and the validator preserves every epic's
`deps` field exactly as it appears in the document (it is neither dropped nor
altered; an absent field stays absent). -/
theorem validateState_accepts_and_preserves_deps :
    (∀ raw : Json, wellFormedDoc raw = true → (validateState raw).isSome) ∧
    (∀ (raw : Json) (st : State), validateState raw = some st →
      ∀ i : Nat, st.epics[i]?.map Epic.deps = (rawEpics raw)[i]?.map rawDeps) := by
  constructor
  · intro raw h
    cases raw
    case obj fields =>
      simp only [wellFormedDoc, Bool.and_eq_true] at h
      obtain ⟨⟨hver, hepics⟩, htasks⟩ := h
      have hverEq : getField fields "version" = some (Json.num 1) := by
        split at hver
        · assumption
        · simp at hver
      have hsomeE : (match getField fields "epics" with
          | none => some ([] : List Epic)
          | some (Json.arr elems) => parseEpicsWith parseEpic elems
          | some _ => none).isSome := by
        split at hepics
        · rename_i hget; simp [hget]
        · rename_i elems hget
          exact parseEpicsWith_isSome hepics
        · simp at hepics
      have hsomeT : (match getField fields "tasks" with
          | none => some (none : Option (List Task))
          | some (Json.arr elems) => (parseTasksWith parseTask elems).map some
          | some _ => none).isSome := by
        split at htasks
        · rename_i hget; simp [hget]
        · rename_i elems hget
          have := parseTasksWith_isSome htasks
          rw [Option.isSome_iff_exists] at this
          obtain ⟨ts, hts⟩ := this
          simp [hts]
        · simp at htasks
      rw [Option.isSome_iff_exists] at hsomeE hsomeT
      obtain ⟨epics, hepicsEq⟩ := hsomeE
      obtain ⟨tasks, htasksEq⟩ := hsomeT
      simp [validateState, hverEq, hepicsEq, htasksEq]
    all_goals simp [wellFormedDoc] at h
  · intro raw st h i
    exact validateState_epic_deps h i

/-- The two-epic document used as the C2 witness input: the first epic's
deps lists the second epic's id. -/
def c2doc : Json :=
  Json.obj
    [("version", Json.num 1),
     ("epics", Json.arr
       [Json.obj
         [("id", Json.str "e1"), ("content", Json.str "epic one content"),
          ("priority", Json.num 1), ("created_at", Json.str "2024-01-15T10:00:00.000Z"),
          ("deps", Json.arr [Json.str "e2"])],
        Json.obj
         [("id", Json.str "e2"), ("content", Json.str "epic two content"),
          ("priority", Json.num 2),
          ("created_at", Json.str "2024-01-15T10:00:00.000Z")]])]

/-- The typed state the validator returns for `c2doc`. -/
def c2state : State :=
  { version := 1,
    epics :=
      [{ id := "e1", content := "epic one content", priority := 1,
         status := Status.pending, created_at := "2024-01-15T10:00:00.000Z",
         deps := some ["e2"] },
       { id := "e2", content := "epic two content", priority := 2,
         status := Status.pending, created_at := "2024-01-15T10:00:00.000Z" }],
    tasks := none }

/-- Witness for C2: `c2doc` is well formed and accepted, and the first parsed
epic's deps are exactly the raw deps `["e2"]`. -/
theorem validateState_accepts_and_preserves_deps_witness :
    wellFormedDoc c2doc = true ∧
    (validateState c2doc).isSome ∧
    validateState c2doc = some c2state ∧
    c2state.epics[0]?.map Epic.deps = (rawEpics c2doc)[0]?.map rawDeps ∧
    c2state.epics[0]?.map Epic.deps = some (some ["e2"]) :=
  ⟨rfl, validateState_accepts_and_preserves_deps.1 c2doc rfl, rfl,
    validateState_accepts_and_preserves_deps.2 c2doc c2state rfl 0, rfl⟩

/-- All ids in a task's subtree (the task's own id, then its subtasks'). -/
def taskTreeIds (t : Task) : List String := t.id :: t.subtasks.map Subtask.id

/-- All ids in an epic's subtree. -/
def epicTreeIds (e : Epic) : List String := e.id :: e.tasks.flatMap taskTreeIds

/-- All ids of a state, in document order. -/
def stateIds (s : State) : List String :=
  s.epics.flatMap epicTreeIds ++ (s.tasks.getD []).flatMap taskTreeIds

/-- The §3 shared invariant: id uniqueness across the entire state. -/
def UniqueIds (s : State) : Prop := (stateIds s).Nodup

theorem findIdx?_middle {α : Type} (p : α → Bool) {pre : List α} (post : List α) (a : α)
    (hpre : ∀ x ∈ pre, p x = false) (ha : p a = true) :
    (pre ++ a :: post).findIdx? p = some pre.length := by
  induction pre with
  | nil => simp [List.findIdx?_cons, ha]
  | cons x xs ih =>
    have hx : p x = false := hpre x (by simp)
    have hrest : ∀ y ∈ xs, p y = false := fun y hy => hpre y (by simp [hy])
    simp [List.findIdx?_cons, hx, ih hrest]

theorem getElem?_middle {α : Type} (pre post : List α) (a : α) :
    (pre ++ a :: post)[pre.length]? = some a := by
  induction pre with
  | nil => simp
  | cons x xs ih => simpa using ih

theorem set_middle {α : Type} (pre post : List α) (a b : α) :
    (pre ++ a :: post).set pre.length b = pre ++ b :: post := by
  induction pre with
  | nil => rfl
  | cons x xs ih => simp [ih]

theorem find?_middle {α : Type} (p : α → Bool) {pre : List α} (post : List α) (a : α)
    (hpre : ∀ x ∈ pre, p x = false) (ha : p a = true) :
    (pre ++ a :: post).find? p = some a := by
  induction pre with
  | nil => simp [List.find?_cons, ha]
  | cons x xs ih =>
    have hx : p x = false := hpre x (by simp)
    have hrest : ∀ y ∈ xs, p y = false := fun y hy => hpre y (by simp [hy])
    simp [List.find?_cons, hx, ih hrest]

theorem nodup_append_facts {l1 l2 : List String} (h : (l1 ++ l2).Nodup) :
    l1.Nodup ∧ l2.Nodup ∧ ∀ x, x ∈ l2 → x ∉ l1 := by
  rw [List.nodup_append] at h
  exact ⟨h.1, h.2.1, fun x hx2 hx1 => h.2.2 hx1 hx2⟩

theorem mem_taskTreeIds_of_subtask {t : Task} {su : Subtask} (h : su ∈ t.subtasks) :
    su.id ∈ taskTreeIds t := by
  simp only [taskTreeIds, List.mem_cons, List.mem_map]
  exact Or.inr ⟨su, h, rfl⟩

theorem mem_epicTreeIds_of_task {e : Epic} {t : Task} (h : t ∈ e.tasks) {x : String}
    (hx : x ∈ taskTreeIds t) : x ∈ epicTreeIds e := by
  simp only [epicTreeIds, List.mem_cons, List.mem_flatMap]
  exact Or.inr ⟨t, h, hx⟩

/-- The id facts needed to run `markComplete` at a subtask `S` that sits at a
known position in the tree: no earlier item shares `S.id`, and the identities
on the path are pairwise distinct. -/
theorem uniqueIds_subtask_facts {s : State} {pre post : List Epic} {E : Epic}
    {tpre tpost : List Task} {T : Task} {spre spost : List Subtask} {S : Subtask}
    (hep : s.epics = pre ++ E :: post) (hts : E.tasks = tpre ++ T :: tpost)
    (hss : T.subtasks = spre ++ S :: spost) (hu : UniqueIds s) :
    (∀ e ∈ pre, S.id ∉ epicTreeIds e) ∧ E.id ≠ S.id ∧
    (∀ t ∈ tpre, S.id ∉ taskTreeIds t) ∧ T.id ≠ S.id ∧
    (∀ su ∈ spre, su.id ≠ S.id) ∧ (∀ su ∈ spost, su.id ≠ S.id) ∧
    (∀ e ∈ pre, e.id ≠ E.id) ∧ (∀ t ∈ tpre, t.id ≠ T.id) := by
  unfold UniqueIds stateIds at hu
  rw [hep] at hu
  rw [List.flatMap_append, List.flatMap_cons, List.append_assoc] at hu
  obtain ⟨hnA, hnRest, hdisA⟩ := nodup_append_facts hu
  obtain ⟨hnE12, hnRest2, hdisE⟩ := nodup_append_facts hnRest
  obtain ⟨hnE, hnPost, hdisEpost⟩ := nodup_append_facts hnE12
  have hSinT : S.id ∈ taskTreeIds T :=
    mem_taskTreeIds_of_subtask (by rw [hss]; exact List.mem_append_right _ (by simp))
  have hTinE : T ∈ E.tasks := by rw [hts]; exact List.mem_append_right _ (by simp)
  have hSinE : S.id ∈ epicTreeIds E := mem_epicTreeIds_of_task hTinE hSinT
  have hEinE : E.id ∈ epicTreeIds E := by simp [epicTreeIds]
  -- facts inside epicTreeIds E
  have hnE2 := hnE
  unfold epicTreeIds at hnE2
  rw [List.nodup_cons] at hnE2
  obtain ⟨hEnotin, hnTasks⟩ := hnE2
  rw [hts, List.flatMap_append, List.flatMap_cons] at hnTasks
  obtain ⟨hnTpre, hnTrest, hdisTpre⟩ := nodup_append_facts hnTasks
  obtain ⟨hnT, hnTpost, hdisT⟩ := nodup_append_facts hnTrest
  have hSmemTrest : S.id ∈ taskTreeIds T ++ tpost.flatMap taskTreeIds :=
    List.mem_append_left _ hSinT
  -- facts inside taskTreeIds T
  have hnT2 := hnT
  unfold taskTreeIds at hnT2
  rw [List.nodup_cons] at hnT2
  obtain ⟨hTnotin, hnSubs⟩ := hnT2
  rw [hss, List.map_append, List.map_cons] at hnSubs
  obtain ⟨hnSpre, hnSrest, hdisSpre⟩ := nodup_append_facts hnSubs
  rw [List.nodup_cons] at hnSrest
  refine ⟨?_, ?_, ?_, ?_, ?_, ?_, ?_, ?_⟩
  · intro e he hmem
    exact hdisA S.id (List.mem_append_left _ (List.mem_append_left _ hSinE))
      (List.mem_flatMap.mpr ⟨e, he, hmem⟩)
  · intro hEq
    rw [hts] at hEnotin
    rw [List.flatMap_append, List.flatMap_cons] at hEnotin
    exact hEnotin (by
      rw [hEq]
      exact List.mem_append_right _ (List.mem_append_left _ hSinT))
  · intro t ht hmem
    exact hdisTpre S.id hSmemTrest (List.mem_flatMap.mpr ⟨t, ht, hmem⟩)
  · intro hEq
    rw [hss] at hTnotin
    apply hTnotin
    rw [hEq, List.map_append, List.map_cons]
    exact List.mem_append_right _ (by simp)
  · intro su hsu hEq
    exact hdisSpre S.id (by simp) (by
      rw [← hEq]
      exact List.mem_map.mpr ⟨su, hsu, rfl⟩)
  · intro su hsu hEq
    exact hnSrest.1 (by
      rw [← hEq]
      exact List.mem_map.mpr ⟨su, hsu, rfl⟩)
  · intro e he hEq
    exact hdisA E.id (List.mem_append_left _ (List.mem_append_left _ hEinE))
      (List.mem_flatMap.mpr ⟨e, he, by rw [← hEq] at hEinE ⊢; simp [epicTreeIds]⟩)
  · intro t ht hEq
    have hTid : T.id ∈ taskTreeIds T ++ tpost.flatMap taskTreeIds :=
      List.mem_append_left _ (by simp [taskTreeIds])
    exact hdisTpre T.id hTid
      (List.mem_flatMap.mpr ⟨t, ht, by rw [← hEq]; simp [taskTreeIds]⟩)

theorem findAndCompleteSubtask_none {s : State} {E : Epic} {t : Task} {id now : String}
    (h : ∀ su ∈ t.subtasks, su.id ≠ id) :
    findAndCompleteSubtask s E t id now = none := by
  unfold findAndCompleteSubtask
  have hf : t.subtasks.find? (fun su => su.id == id) = none := by
    rw [List.find?_eq_none]
    intro su hsu
    simp [h su hsu]
  rw [hf]

theorem findAndCompleteTaskLoop_none {s : State} {E : Epic} {id now : String} :
    ∀ ts : List Task, (∀ t ∈ ts, id ∉ taskTreeIds t) →
      findAndCompleteTaskLoop s E id now ts = none := by
  intro ts
  induction ts with
  | nil => intro h; rfl
  | cons t rest ih =>
    intro h
    have ht := h t (by simp)
    simp only [taskTreeIds, List.mem_cons, not_or] at ht
    obtain ⟨htid, hsubs⟩ := ht
    have hsubs2 : ∀ su ∈ t.subtasks, su.id ≠ id := by
      intro su hsu hEq
      exact hsubs (List.mem_map.mpr ⟨su, hsu, hEq⟩)
    have htid2 : (t.id == id) = false := by
      simp only [beq_eq_false_iff_ne, ne_eq]
      exact fun hEq => htid hEq.symm
    simp only [findAndCompleteTaskLoop, htid2, Bool.false_eq_true, if_false,
      findAndCompleteSubtask_none hsubs2]
    exact ih (fun x hx => h x (by simp [hx]))

theorem findAndCompleteTaskLoop_append {s : State} {E : Epic} {id now : String}
    {tpre : List Task} (rest : List Task) (h : ∀ t ∈ tpre, id ∉ taskTreeIds t) :
    findAndCompleteTaskLoop s E id now (tpre ++ rest) =
      findAndCompleteTaskLoop s E id now rest := by
  induction tpre with
  | nil => rfl
  | cons t ts ih =>
    have ht := h t (by simp)
    simp only [taskTreeIds, List.mem_cons, not_or] at ht
    obtain ⟨htid, hsubs⟩ := ht
    have hsubs2 : ∀ su ∈ t.subtasks, su.id ≠ id := by
      intro su hsu hEq
      exact hsubs (List.mem_map.mpr ⟨su, hsu, hEq⟩)
    have htid2 : (t.id == id) = false := by
      simp only [beq_eq_false_iff_ne, ne_eq]
      exact fun hEq => htid hEq.symm
    rw [List.cons_append]
    simp only [findAndCompleteTaskLoop, htid2, Bool.false_eq_true, if_false,
      findAndCompleteSubtask_none hsubs2]
    exact ih (fun x hx => h x (by simp [hx]))

theorem findAndCompleteTask_none {s : State} {E : Epic} {id now : String}
    (h : id ∉ epicTreeIds E) : findAndCompleteTask s E id now = none := by
  unfold findAndCompleteTask
  apply findAndCompleteTaskLoop_none
  intro t ht hmem
  exact h (mem_epicTreeIds_of_task ht hmem)

theorem markCompleteEpicsLoop_append {s : State} {id now : String} {pre : List Epic}
    (rest : List Epic) (h : ∀ e ∈ pre, id ∉ epicTreeIds e) :
    markCompleteEpicsLoop s id now (pre ++ rest) = markCompleteEpicsLoop s id now rest := by
  induction pre with
  | nil => rfl
  | cons e es ih =>
    have he := h e (by simp)
    have heid : (e.id == id) = false := by
      simp only [beq_eq_false_iff_ne, ne_eq]
      intro hEq
      exact he (by simp [epicTreeIds, hEq])
    rw [List.cons_append]
    simp only [markCompleteEpicsLoop, heid, Bool.false_eq_true, if_false,
      findAndCompleteTask_none he]
    exact ih (fun x hx => h x (by simp [hx]))

theorem findEpic_at {s : State} {pre post : List Epic} {E : Epic}
    (hep : s.epics = pre ++ E :: post) (hpre : ∀ e ∈ pre, e.id ≠ E.id) :
    findEpic s E.id = some (E, pre.length) := by
  unfold findEpic
  rw [hep, findIdx?_middle (fun e => e.id == E.id) post E
    (fun e he => by simp [hpre e he]) (by simp)]
  dsimp only
  rw [getElem?_middle]

theorem findTask_at {s : State} {pre post : List Epic} {E : Epic}
    {tpre tpost : List Task} {T : Task}
    (hep : s.epics = pre ++ E :: post) (hts : E.tasks = tpre ++ T :: tpost)
    (hpre : ∀ e ∈ pre, e.id ≠ E.id) (htpre : ∀ t ∈ tpre, t.id ≠ T.id) :
    findTask s E.id T.id = some (E, pre.length, T, tpre.length) := by
  unfold findTask
  rw [findEpic_at hep hpre]
  dsimp only
  rw [hts, findIdx?_middle (fun t => t.id == T.id) tpost T
    (fun t ht => by simp [htpre t ht]) (by simp)]
  dsimp only
  rw [getElem?_middle]

theorem findSubtask_at {s : State} {pre post : List Epic} {E : Epic}
    {tpre tpost : List Task} {T : Task} {spre spost : List Subtask} {S : Subtask}
    (hep : s.epics = pre ++ E :: post) (hts : E.tasks = tpre ++ T :: tpost)
    (hss : T.subtasks = spre ++ S :: spost)
    (hpre : ∀ e ∈ pre, e.id ≠ E.id) (htpre : ∀ t ∈ tpre, t.id ≠ T.id)
    (hspre : ∀ su ∈ spre, su.id ≠ S.id) :
    findSubtask s E.id T.id S.id =
      some (E, pre.length, T, tpre.length, S, spre.length) := by
  unfold findSubtask
  rw [findTask_at hep hts hpre htpre]
  dsimp only
  rw [hss, findIdx?_middle (fun su => su.id == S.id) spost S
    (fun su hsu => by simp [hspre su hsu]) (by simp)]
  dsimp only
  rw [getElem?_middle]

theorem updateEpic_at {s : State} {pre post : List Epic} {E : Epic}
    (input : UpdateItemInput) (now : String)
    (hep : s.epics = pre ++ E :: post) (hpre : ∀ e ∈ pre, e.id ≠ E.id) :
    updateEpic s E.id input now =
      Except.ok { s with epics := pre ++ applyUpdateEpic E input now :: post } := by
  unfold updateEpic
  rw [findEpic_at hep hpre]
  dsimp only [updateEpicInState]
  rw [hep, set_middle]

theorem updateTask_at {s : State} {pre post : List Epic} {E : Epic}
    {tpre tpost : List Task} {T : Task} (input : UpdateItemInput) (now : String)
    (hep : s.epics = pre ++ E :: post) (hts : E.tasks = tpre ++ T :: tpost)
    (hpre : ∀ e ∈ pre, e.id ≠ E.id) (htpre : ∀ t ∈ tpre, t.id ≠ T.id) :
    updateTask s E.id T.id input now =
      Except.ok { s with epics := pre ++
        { E with tasks := tpre ++ applyUpdateTask T input now :: tpost,
                 updated_at := some now } :: post } := by
  unfold updateTask
  rw [findTask_at hep hts hpre htpre]
  dsimp only [updateTaskInEpic, updateEpicInState]
  rw [hep, hts, set_middle, set_middle]

theorem updateSubtask_at {s : State} {pre post : List Epic} {E : Epic}
    {tpre tpost : List Task} {T : Task} {spre spost : List Subtask} {S : Subtask}
    (input : UpdateItemInput) (now : String)
    (hep : s.epics = pre ++ E :: post) (hts : E.tasks = tpre ++ T :: tpost)
    (hss : T.subtasks = spre ++ S :: spost)
    (hpre : ∀ e ∈ pre, e.id ≠ E.id) (htpre : ∀ t ∈ tpre, t.id ≠ T.id)
    (hspre : ∀ su ∈ spre, su.id ≠ S.id) :
    updateSubtask s E.id T.id S.id input now =
      Except.ok { s with epics := pre ++
        { E with tasks := tpre ++
                   { T with subtasks := spre ++ applyUpdateSubtask S input now :: spost,
                            updated_at := some now } :: tpost,
                 updated_at := some now } :: post } := by
  unfold updateSubtask
  rw [findSubtask_at hep hts hss hpre htpre hspre]
  dsimp only [updateSubtaskInTask, updateTaskInEpic, updateEpicInState]
  rw [hep, hts, hss, set_middle, set_middle, set_middle]

/-- `markComplete` at a subtask with a unique id dispatches to
`completeSubtaskAndCascade` with the subtask's epic and task. -/
theorem markComplete_at_subtask {s : State} {pre post : List Epic} {E : Epic}
    {tpre tpost : List Task} {T : Task} {spre spost : List Subtask} {S : Subtask}
    (now : String)
    (hep : s.epics = pre ++ E :: post) (hts : E.tasks = tpre ++ T :: tpost)
    (hss : T.subtasks = spre ++ S :: spost) (hu : UniqueIds s) :
    markComplete s S.id now = completeSubtaskAndCascade s E.id T.id S.id now := by
  obtain ⟨f1, f2, f3, f4, f5, f6, f7, f8⟩ := uniqueIds_subtask_facts hep hts hss hu
  have hEid : (E.id == S.id) = false := by simp [f2]
  have hTid : (T.id == S.id) = false := by simp [f4]
  have hfact : findAndCompleteTask s E S.id now =
      some (completeSubtaskAndCascade s E.id T.id S.id now) := by
    unfold findAndCompleteTask
    rw [hts, findAndCompleteTaskLoop_append (T :: tpost) f3]
    have hfind : T.subtasks.find? (fun su => su.id == S.id) = some S := by
      rw [hss]
      exact find?_middle (fun su => su.id == S.id) spost S
        (fun su hsu => by simp [f5 su hsu]) (by simp)
    simp only [findAndCompleteTaskLoop, hTid, Bool.false_eq_true, if_false,
      findAndCompleteSubtask, hfind]
  unfold markComplete
  rw [hep, markCompleteEpicsLoop_append (E :: post) f1]
  simp only [markCompleteEpicsLoop, hEid, Bool.false_eq_true, if_false, hfact]

@[simp]
theorem applyUpdateEpic_id (e : Epic) (input : UpdateItemInput) (now : String) :
    (applyUpdateEpic e input now).id = e.id := rfl

@[simp]
theorem applyUpdateTask_id (t : Task) (input : UpdateItemInput) (now : String) :
    (applyUpdateTask t input now).id = t.id := rfl

@[simp]
theorem applyUpdateSubtask_id (s : Subtask) (input : UpdateItemInput) (now : String) :
    (applyUpdateSubtask s input now).id = s.id := rfl

@[simp]
theorem applyUpdateSubtask_completed (su : Subtask) (now : String) :
    (applyUpdateSubtask su completedInput now).status = Status.completed ∧
    (applyUpdateSubtask su completedInput now).completed_at = some now ∧
    (applyUpdateSubtask su completedInput now).updated_at = some now := by
  refine ⟨rfl, ?_, rfl⟩
  simp [applyUpdateSubtask, completedInput]

@[simp]
theorem applyUpdateTask_completed (t : Task) (now : String) :
    (applyUpdateTask t completedInput now).status = Status.completed ∧
    (applyUpdateTask t completedInput now).completed_at = some now ∧
    (applyUpdateTask t completedInput now).updated_at = some now ∧
    (applyUpdateTask t completedInput now).subtasks = t.subtasks := by
  refine ⟨rfl, ?_, rfl, rfl⟩
  simp [applyUpdateTask, completedInput]

@[simp]
theorem applyUpdateEpic_completed (e : Epic) (now : String) :
    (applyUpdateEpic e completedInput now).status = Status.completed ∧
    (applyUpdateEpic e completedInput now).completed_at = some now ∧
    (applyUpdateEpic e completedInput now).updated_at = some now ∧
    (applyUpdateEpic e completedInput now).tasks = e.tasks := by
  refine ⟨rfl, ?_, rfl, rfl⟩
  simp [applyUpdateEpic, completedInput]

/-- C4 (amended): in any state with unique ids where Epic E contains exactly
one Task T that contains exactly one Subtask S, and T is not already marked
completed, `markComplete` at S succeeds and the cascade marks S, T and E
completed, each with `completed_at` set to the new timestamp. -/
theorem markComplete_cascades_full {s : State} {pre post : List Epic} {E : Epic}
    {T : Task} {S : Subtask} (now : String)
    (hep : s.epics = pre ++ E :: post) (hts : E.tasks = [T]) (hss : T.subtasks = [S])
    (hu : UniqueIds s) (hT : T.status ≠ Status.completed) :
    ∃ E2 T2 S2,
      markComplete s S.id now = Except.ok { s with epics := pre ++ E2 :: post } ∧
      E2.tasks = [T2] ∧ T2.subtasks = [S2] ∧
      S2.status = Status.completed ∧ S2.completed_at = some now ∧
      T2.status = Status.completed ∧ T2.completed_at = some now ∧
      E2.status = Status.completed ∧ E2.completed_at = some now := by
  have hts2 : E.tasks = [] ++ T :: [] := by simpa using hts
  have hss2 : T.subtasks = [] ++ S :: [] := by simpa using hss
  obtain ⟨f1, f2, f3, f4, f5, f6, f7, f8⟩ := uniqueIds_subtask_facts hep hts2 hss2 hu
  have hmc := markComplete_at_subtask now hep hts2 hss2 hu
  set S1 := applyUpdateSubtask S completedInput now with hS1
  set T1 : Task := { T with subtasks := [] ++ S1 :: [], updated_at := some now } with hT1
  set E1 : Epic := { E with tasks := [] ++ T1 :: [], updated_at := some now } with hE1
  have hupd := updateSubtask_at completedInput now hep hts2 hss2 f7 f8 f5
  have hcsc : completeSubtaskAndCascade s E.id T.id S.id now =
      maybeCompleteTaskAndEpic { s with epics := pre ++ E1 :: post } E.id T.id now := by
    unfold completeSubtaskAndCascade
    rw [hupd]
  set s1 : State := { s with epics := pre ++ E1 :: post } with hs1
  have hfindE : s1.epics.find? (fun e => e.id == E.id) = some E1 := by
    show (pre ++ E1 :: post).find? (fun e => e.id == E.id) = some E1
    exact find?_middle _ post E1 (fun e he => by simp [f7 e he]) (by simp [hE1])
  have hfindT : E1.tasks.find? (fun t => t.id == T.id) = some T1 := by
    simp [hE1, List.find?_cons, hT1]
  have hmcte : maybeCompleteTaskAndEpic s1 E.id T.id now =
      maybeCompleteEpic
        { s1 with epics := pre ++
            { E1 with tasks := [] ++ applyUpdateTask T1 completedInput now :: [],
                      updated_at := some now } :: post }
        E.id now := by
    have hlen : (T1.subtasks.length == 0) = false := by simp [hT1]
    have hall : T1.subtasks.all (fun su => su.status == Status.completed) = true := by
      simp [hT1, hS1]
    have hstat : (T1.status == Status.completed) = false := by
      have : T1.status = T.status := rfl
      rw [this]
      simp [hT]
    unfold maybeCompleteTaskAndEpic
    rw [hfindE]
    dsimp only [Option.bind]
    rw [hfindT]
    dsimp only
    rw [hlen]
    simp only [Bool.false_eq_true, if_false]
    rw [hall, hstat]
    simp only [Bool.not_true, Bool.false_or, Bool.false_eq_true, if_false]
    rw [updateTask_at completedInput now (show s1.epics = pre ++ E1 :: post from rfl)
      (show E1.tasks = [] ++ T1 :: [] by simp [hE1])
      (fun e he => by simpa [hE1] using f7 e he)
      (fun t ht => absurd ht (by simp))]
  set T2 := applyUpdateTask T1 completedInput now with hT2
  set E2 : Epic := { E1 with tasks := [] ++ T2 :: [], updated_at := some now } with hE2
  set s2 : State := { s1 with epics := pre ++ E2 :: post } with hs2
  have hfindE2 : s2.epics.find? (fun e => e.id == E.id) = some E2 := by
    show (pre ++ E2 :: post).find? (fun e => e.id == E.id) = some E2
    exact find?_middle _ post E2 (fun e he => by simp [f7 e he]) (by simp [hE2, hE1])
  have hmce : maybeCompleteEpic s2 E.id now =
      Except.ok { s2 with epics := pre ++ applyUpdateEpic E2 completedInput now :: post } := by
    have hlen : (E2.tasks.length == 0) = false := by simp [hE2]
    have hall : E2.tasks.all (fun t => t.status == Status.completed) = true := by
      simp [hE2, hT2]
    unfold maybeCompleteEpic
    rw [hfindE2]
    dsimp only
    rw [hlen]
    simp only [Bool.false_eq_true, if_false]
    rw [hall]
    simp only [if_true]
    exact updateEpic_at completedInput now (show s2.epics = pre ++ E2 :: post from rfl)
      (fun e he => by simpa [hE2, hE1] using f7 e he)
  refine ⟨applyUpdateEpic E2 completedInput now, T2, S1, ?_, ?_, ?_, ?_, ?_, ?_, ?_, ?_, ?_⟩
  · rw [hmc, hcsc, hmcte, hmce]
  · simp [hE2]
  · simp [hT2, hT1, applyUpdateTask, completedInput]
  · exact (applyUpdateSubtask_completed S now).1
  · exact (applyUpdateSubtask_completed S now).2.1
  · exact (applyUpdateTask_completed T1 now).1
  · exact (applyUpdateTask_completed T1 now).2.1
  · exact (applyUpdateEpic_completed E2 now).1
  · exact (applyUpdateEpic_completed E2 now).2.1

/-- C5: in any state with unique ids where Epic E contains Task T (plus at
least one other Task that is not completed), and every Subtask of T except S
is completed, `markComplete` at S completes T but leaves E's status exactly
as it was. -/
theorem markComplete_cascade_partial {s : State} {pre post : List Epic} {E : Epic}
    {tpre tpost : List Task} {T : Task} {spre spost : List Subtask} {S : Subtask}
    (now : String)
    (hep : s.epics = pre ++ E :: post) (hts : E.tasks = tpre ++ T :: tpost)
    (hss : T.subtasks = spre ++ S :: spost) (hu : UniqueIds s)
    (hother : ∃ t2, (t2 ∈ tpre ∨ t2 ∈ tpost) ∧ t2.status ≠ Status.completed)
    (hsibs : ∀ su, su ∈ spre ∨ su ∈ spost → su.status = Status.completed)
    (hS : S.status ≠ Status.completed) :
    ∃ E2 T2,
      markComplete s S.id now = Except.ok { s with epics := pre ++ E2 :: post } ∧
      E2.tasks = tpre ++ T2 :: tpost ∧
      T2.status = Status.completed ∧
      E2.status = E.status := by
  obtain ⟨f1, f2, f3, f4, f5, f6, f7, f8⟩ := uniqueIds_subtask_facts hep hts hss hu
  have hmc := markComplete_at_subtask now hep hts hss hu
  set S1 := applyUpdateSubtask S completedInput now with hS1
  set T1 : Task := { T with subtasks := spre ++ S1 :: spost, updated_at := some now } with hT1
  set E1 : Epic := { E with tasks := tpre ++ T1 :: tpost, updated_at := some now } with hE1
  have hupd := updateSubtask_at completedInput now hep hts hss f7 f8 f5
  have hcsc : completeSubtaskAndCascade s E.id T.id S.id now =
      maybeCompleteTaskAndEpic { s with epics := pre ++ E1 :: post } E.id T.id now := by
    unfold completeSubtaskAndCascade
    rw [hupd]
  set s1 : State := { s with epics := pre ++ E1 :: post } with hs1
  have hfindE : s1.epics.find? (fun e => e.id == E.id) = some E1 := by
    show (pre ++ E1 :: post).find? (fun e => e.id == E.id) = some E1
    exact find?_middle _ post E1 (fun e he => by simp [f7 e he]) (by simp [hE1])
  have hfindT : E1.tasks.find? (fun t => t.id == T.id) = some T1 := by
    show (tpre ++ T1 :: tpost).find? (fun t => t.id == T.id) = some T1
    exact find?_middle _ tpost T1 (fun t ht => by simp [f8 t ht]) (by simp [hT1])
  have hlen : (T1.subtasks.length == 0) = false := by simp [hT1]
  by_cases hTc : T.status = Status.completed
  · -- the cascade's task step early-returns: T is already completed
    have hmcte : maybeCompleteTaskAndEpic s1 E.id T.id now = Except.ok s1 := by
      unfold maybeCompleteTaskAndEpic
      rw [hfindE]
      dsimp only [Option.bind]
      rw [hfindT]
      dsimp only
      rw [hlen]
      simp only [Bool.false_eq_true, if_false]
      have hstat : (T1.status == Status.completed) = true := by
        have hts1 : T1.status = T.status := rfl
        rw [hts1]
        simp [hTc]
      rw [hstat]
      simp only [Bool.or_true, if_true]
    refine ⟨E1, T1, ?_, rfl, ?_, rfl⟩
    · rw [hmc, hcsc, hmcte]
    · show T.status = Status.completed
      exact hTc
  · -- T gets completed; the epic step sees the other incomplete task
    have hall : T1.subtasks.all (fun su => su.status == Status.completed) = true := by
      rw [List.all_eq_true]
      intro su hsu
      simp only [hT1] at hsu
      rw [List.mem_append, List.mem_cons] at hsu
      rcases hsu with hsu | hsu | hsu
      · simp [hsibs su (Or.inl hsu)]
      · rw [hsu]
        simp [hS1]
      · simp [hsibs su (Or.inr hsu)]
    have hmcte : maybeCompleteTaskAndEpic s1 E.id T.id now =
        maybeCompleteEpic
          { s1 with epics := pre ++
              { E1 with tasks := tpre ++ applyUpdateTask T1 completedInput now :: tpost,
                        updated_at := some now } :: post }
          E.id now := by
      unfold maybeCompleteTaskAndEpic
      rw [hfindE]
      dsimp only [Option.bind]
      rw [hfindT]
      dsimp only
      rw [hlen]
      simp only [Bool.false_eq_true, if_false]
      have hstat : (T1.status == Status.completed) = false := by
        have hts1 : T1.status = T.status := rfl
        rw [hts1]
        simp [hTc]
      rw [hall, hstat]
      simp only [Bool.not_true, Bool.false_or, Bool.false_eq_true, if_false]
      rw [updateTask_at completedInput now (show s1.epics = pre ++ E1 :: post from rfl)
        (show E1.tasks = tpre ++ T1 :: tpost from rfl)
        (fun e he => by simpa [hE1] using f7 e he)
        (fun t ht => by simpa [hT1] using f8 t ht)]
    set T2 := applyUpdateTask T1 completedInput now with hT2
    set E2 : Epic := { E1 with tasks := tpre ++ T2 :: tpost, updated_at := some now } with hE2
    set s2 : State := { s1 with epics := pre ++ E2 :: post } with hs2
    have hfindE2 : s2.epics.find? (fun e => e.id == E.id) = some E2 := by
      show (pre ++ E2 :: post).find? (fun e => e.id == E.id) = some E2
      exact find?_middle _ post E2 (fun e he => by simp [f7 e he]) (by simp [hE2, hE1])
    have hmce : maybeCompleteEpic s2 E.id now = Except.ok s2 := by
      have hlen2 : (E2.tasks.length == 0) = false := by simp [hE2]
      have hall2 : E2.tasks.all (fun t => t.status == Status.completed) = false := by
        rw [List.all_eq_false]
        obtain ⟨t2, ht2mem, ht2⟩ := hother
        refine ⟨t2, ?_, by simp [ht2]⟩
        simp only [hE2]
        rw [List.mem_append, List.mem_cons]
        rcases ht2mem with h | h
        · exact Or.inl h
        · exact Or.inr (Or.inr h)
      unfold maybeCompleteEpic
      rw [hfindE2]
      dsimp only
      rw [hlen2]
      simp only [Bool.false_eq_true, if_false]
      rw [hall2]
      simp only [Bool.false_eq_true, if_false]
    refine ⟨E2, T2, ?_, rfl, ?_, rfl⟩
    · rw [hmc, hcsc, hmcte, hmce]
    · exact (applyUpdateTask_completed T1 now).1

/-- C10: `markComplete` at a Subtask S that is already completed, under a
Task T that is already completed, is not a no-op on S — S's `updated_at` and
`completed_at` are overwritten with the new timestamp — while the upward
cascade skips the already-completed parent Task: T keeps its status and its
old `completed_at`, and E's status and `completed_at` are untouched. -/
theorem markComplete_recompletes_and_skips_completed_parent {s : State}
    {pre post : List Epic} {E : Epic} {tpre tpost : List Task} {T : Task}
    {spre spost : List Subtask} {S : Subtask} (now : String)
    (hep : s.epics = pre ++ E :: post) (hts : E.tasks = tpre ++ T :: tpost)
    (hss : T.subtasks = spre ++ S :: spost) (hu : UniqueIds s)
    (hT : T.status = Status.completed) (hS : S.status = Status.completed) :
    ∃ E2 T2,
      markComplete s S.id now = Except.ok { s with epics := pre ++ E2 :: post } ∧
      E2.tasks = tpre ++ T2 :: tpost ∧
      T2.subtasks = spre ++ applyUpdateSubtask S completedInput now :: spost ∧
      (applyUpdateSubtask S completedInput now).status = Status.completed ∧
      (applyUpdateSubtask S completedInput now).updated_at = some now ∧
      (applyUpdateSubtask S completedInput now).completed_at = some now ∧
      T2.status = T.status ∧ T2.completed_at = T.completed_at ∧
      E2.status = E.status ∧ E2.completed_at = E.completed_at := by
  obtain ⟨f1, f2, f3, f4, f5, f6, f7, f8⟩ := uniqueIds_subtask_facts hep hts hss hu
  have hmc := markComplete_at_subtask now hep hts hss hu
  set S1 := applyUpdateSubtask S completedInput now with hS1
  set T1 : Task := { T with subtasks := spre ++ S1 :: spost, updated_at := some now } with hT1
  set E1 : Epic := { E with tasks := tpre ++ T1 :: tpost, updated_at := some now } with hE1
  have hupd := updateSubtask_at completedInput now hep hts hss f7 f8 f5
  have hcsc : completeSubtaskAndCascade s E.id T.id S.id now =
      maybeCompleteTaskAndEpic { s with epics := pre ++ E1 :: post } E.id T.id now := by
    unfold completeSubtaskAndCascade
    rw [hupd]
  set s1 : State := { s with epics := pre ++ E1 :: post } with hs1
  have hfindE : s1.epics.find? (fun e => e.id == E.id) = some E1 := by
    show (pre ++ E1 :: post).find? (fun e => e.id == E.id) = some E1
    exact find?_middle _ post E1 (fun e he => by simp [f7 e he]) (by simp [hE1])
  have hfindT : E1.tasks.find? (fun t => t.id == T.id) = some T1 := by
    show (tpre ++ T1 :: tpost).find? (fun t => t.id == T.id) = some T1
    exact find?_middle _ tpost T1 (fun t ht => by simp [f8 t ht]) (by simp [hT1])
  have hlen : (T1.subtasks.length == 0) = false := by simp [hT1]
  have hmcte : maybeCompleteTaskAndEpic s1 E.id T.id now = Except.ok s1 := by
    unfold maybeCompleteTaskAndEpic
    rw [hfindE]
    dsimp only [Option.bind]
    rw [hfindT]
    dsimp only
    rw [hlen]
    simp only [Bool.false_eq_true, if_false]
    have hstat : (T1.status == Status.completed) = true := by
      have hts1 : T1.status = T.status := rfl
      rw [hts1]
      simp [hT]
    rw [hstat]
    simp only [Bool.or_true, if_true]
  refine ⟨E1, T1, ?_, rfl, rfl, (applyUpdateSubtask_completed S now).1,
    (applyUpdateSubtask_completed S now).2.2, (applyUpdateSubtask_completed S now).2.1,
    rfl, rfl, rfl, rfl⟩
  rw [hmc, hcsc, hmcte]

theorem uniqueIds_epic_facts {s : State} {pre post : List Epic} {E : Epic}
    (hep : s.epics = pre ++ E :: post) (hu : UniqueIds s) :
    (∀ e ∈ pre, E.id ∉ epicTreeIds e) ∧ (∀ e ∈ pre, e.id ≠ E.id) := by
  unfold UniqueIds stateIds at hu
  rw [hep] at hu
  rw [List.flatMap_append, List.flatMap_cons, List.append_assoc] at hu
  obtain ⟨hnA, hnRest, hdisA⟩ := nodup_append_facts hu
  have hEinE : E.id ∈ epicTreeIds E := by simp [epicTreeIds]
  have h1 : ∀ e ∈ pre, E.id ∉ epicTreeIds e := by
    intro e he hmem
    exact hdisA E.id (List.mem_append_left _ (List.mem_append_left _ hEinE))
      (List.mem_flatMap.mpr ⟨e, he, hmem⟩)
  refine ⟨h1, fun e he hEq => h1 e he ?_⟩
  rw [← hEq]
  simp [epicTreeIds]

theorem uniqueIds_task_facts {s : State} {pre post : List Epic} {E : Epic}
    {tpre tpost : List Task} {T : Task}
    (hep : s.epics = pre ++ E :: post) (hts : E.tasks = tpre ++ T :: tpost)
    (hu : UniqueIds s) :
    (∀ e ∈ pre, T.id ∉ epicTreeIds e) ∧ E.id ≠ T.id ∧
    (∀ t ∈ tpre, T.id ∉ taskTreeIds t) ∧
    (∀ e ∈ pre, e.id ≠ E.id) ∧ (∀ t ∈ tpre, t.id ≠ T.id) := by
  unfold UniqueIds stateIds at hu
  rw [hep] at hu
  rw [List.flatMap_append, List.flatMap_cons, List.append_assoc] at hu
  obtain ⟨hnA, hnRest, hdisA⟩ := nodup_append_facts hu
  obtain ⟨hnE12, hnRest2, hdisE⟩ := nodup_append_facts hnRest
  obtain ⟨hnE, hnPost, hdisEpost⟩ := nodup_append_facts hnE12
  have hTinT : T.id ∈ taskTreeIds T := by simp [taskTreeIds]
  have hTinE : T.id ∈ epicTreeIds E :=
    mem_epicTreeIds_of_task (by rw [hts]; exact List.mem_append_right _ (by simp)) hTinT
  have hEinE : E.id ∈ epicTreeIds E := by simp [epicTreeIds]
  have hnE2 := hnE
  unfold epicTreeIds at hnE2
  rw [List.nodup_cons] at hnE2
  obtain ⟨hEnotin, hnTasks⟩ := hnE2
  rw [hts, List.flatMap_append, List.flatMap_cons] at hnTasks
  obtain ⟨hnTpre, hnTrest, hdisTpre⟩ := nodup_append_facts hnTasks
  refine ⟨?_, ?_, ?_, ?_, ?_⟩
  · intro e he hmem
    exact hdisA T.id (List.mem_append_left _ (List.mem_append_left _ hTinE))
      (List.mem_flatMap.mpr ⟨e, he, hmem⟩)
  · intro hEq
    rw [hts] at hEnotin
    rw [List.flatMap_append, List.flatMap_cons] at hEnotin
    exact hEnotin (by
      rw [hEq]
      exact List.mem_append_right _ (List.mem_append_left _ hTinT))
  · intro t ht hmem
    exact hdisTpre T.id (List.mem_append_left _ hTinT)
      (List.mem_flatMap.mpr ⟨t, ht, hmem⟩)
  · intro e he hEq
    exact hdisA E.id (List.mem_append_left _ (List.mem_append_left _ hEinE))
      (List.mem_flatMap.mpr ⟨e, he, by rw [← hEq]; simp [epicTreeIds]⟩)
  · intro t ht hEq
    exact hdisTpre T.id (List.mem_append_left _ hTinT)
      (List.mem_flatMap.mpr ⟨t, ht, by rw [← hEq]; simp [taskTreeIds]⟩)

/-- `markComplete` at an epic with a unique id: only that epic is updated, its
tasks are carried over untouched, and neither its descendants nor any other
item is inspected or modified. -/
theorem markComplete_at_epic {s : State} {pre post : List Epic} {E : Epic} (now : String)
    (hep : s.epics = pre ++ E :: post) (hu : UniqueIds s) :
    markComplete s E.id now =
      Except.ok { s with epics := pre ++ applyUpdateEpic E completedInput now :: post } := by
  obtain ⟨g1, g2⟩ := uniqueIds_epic_facts hep hu
  have hloop : markCompleteEpicsLoop s E.id now s.epics =
      some (markEpicComplete s E.id now) := by
    rw [hep, markCompleteEpicsLoop_append (E :: post) g1]
    simp [markCompleteEpicsLoop]
  unfold markComplete
  rw [hloop]
  show markEpicComplete s E.id now = _
  unfold markEpicComplete
  exact updateEpic_at completedInput now hep g2

/-- C9: `markComplete` on an Epic's id succeeds with no precondition on the
Epic's children, changes only that Epic's status and timestamps, and leaves
the Epic's entire task list — and every other epic and standalone task —
exactly as it was (no downward cascade). -/
theorem markComplete_epic_frame {s : State} {pre post : List Epic} {E : Epic} (now : String)
    (hep : s.epics = pre ++ E :: post) (hu : UniqueIds s) :
    ∃ E2, markComplete s E.id now = Except.ok { s with epics := pre ++ E2 :: post } ∧
      E2.status = Status.completed ∧ E2.completed_at = some now ∧
      E2.updated_at = some now ∧
      E2.tasks = E.tasks ∧ E2.id = E.id ∧ E2.content = E.content ∧
      E2.priority = E.priority ∧ E2.created_at = E.created_at ∧
      E2.notes = E.notes ∧ E2.deps = E.deps := by
  refine ⟨applyUpdateEpic E completedInput now, markComplete_at_epic now hep hu,
    (applyUpdateEpic_completed E now).1, (applyUpdateEpic_completed E now).2.1,
    (applyUpdateEpic_completed E now).2.2.1, rfl, rfl, ?_, ?_, rfl, ?_, ?_⟩
  · simp [applyUpdateEpic, completedInput]
  · simp [applyUpdateEpic, completedInput]
  · simp [applyUpdateEpic, completedInput]
  · simp [applyUpdateEpic, completedInput]

theorem findIdx?_none {α : Type} (p : α → Bool) :
    ∀ l : List α, (∀ x ∈ l, p x = false) → l.findIdx? p = none := by
  intro l
  induction l with
  | nil => intro h; rfl
  | cons x xs ih =>
    intro h
    have hx : p x = false := h x (by simp)
    simp [List.findIdx?_cons, hx, ih (fun y hy => h y (by simp [hy]))]

theorem eraseIdx_middle {α : Type} (pre post : List α) (a : α) :
    (pre ++ a :: post).eraseIdx pre.length = pre ++ post := by
  induction pre with
  | nil => rfl
  | cons x xs ih => simp [List.eraseIdx_cons_succ, ih]

theorem findAndRemoveSubtask_none {s : State} {epicIndex : Nat} {epic : Epic}
    {taskIndex : Nat} {t : Task} {id now : String}
    (h : ∀ su ∈ t.subtasks, su.id ≠ id) :
    findAndRemoveSubtask s epicIndex epic taskIndex t id now = none := by
  unfold findAndRemoveSubtask
  rw [findIdx?_none _ _ (fun su hsu => by simp [h su hsu])]

theorem findAndRemoveTaskLoop_skip {s : State} {epic : Epic} {epicIndex : Nat}
    {id now : String} {tpre : List Task} (rest : List Task)
    (h : ∀ t ∈ tpre, id ∉ taskTreeIds t) :
    ∀ i : Nat, findAndRemoveTaskLoop s epic epicIndex id now i (tpre ++ rest) =
      findAndRemoveTaskLoop s epic epicIndex id now (i + tpre.length) rest := by
  induction tpre with
  | nil => intro i; simp
  | cons t ts ih =>
    intro i
    have ht := h t (by simp)
    simp only [taskTreeIds, List.mem_cons, not_or] at ht
    obtain ⟨htid, hsubs⟩ := ht
    have hsubs2 : ∀ su ∈ t.subtasks, su.id ≠ id := by
      intro su hsu hEq
      exact hsubs (List.mem_map.mpr ⟨su, hsu, hEq⟩)
    have htid2 : (t.id == id) = false := by
      simp only [beq_eq_false_iff_ne, ne_eq]
      exact fun hEq => htid hEq.symm
    rw [List.cons_append]
    simp only [findAndRemoveTaskLoop, htid2, Bool.false_eq_true, if_false,
      findAndRemoveSubtask_none hsubs2]
    rw [ih (fun x hx => h x (by simp [hx])) (i + 1)]
    congr 1
    simp only [List.length_cons]
    omega

theorem findAndRemoveTaskLoop_none {s : State} {epic : Epic} {epicIndex : Nat}
    {id now : String} :
    ∀ (i : Nat) (ts : List Task), (∀ t ∈ ts, id ∉ taskTreeIds t) →
      findAndRemoveTaskLoop s epic epicIndex id now i ts = none := by
  intro i ts
  induction ts generalizing i with
  | nil => intro h; rfl
  | cons t rest ih =>
    intro h
    have ht := h t (by simp)
    simp only [taskTreeIds, List.mem_cons, not_or] at ht
    obtain ⟨htid, hsubs⟩ := ht
    have hsubs2 : ∀ su ∈ t.subtasks, su.id ≠ id := by
      intro su hsu hEq
      exact hsubs (List.mem_map.mpr ⟨su, hsu, hEq⟩)
    have htid2 : (t.id == id) = false := by
      simp only [beq_eq_false_iff_ne, ne_eq]
      exact fun hEq => htid hEq.symm
    simp only [findAndRemoveTaskLoop, htid2, Bool.false_eq_true, if_false,
      findAndRemoveSubtask_none hsubs2]
    exact ih (i + 1) (fun x hx => h x (by simp [hx]))

theorem findAndRemoveTask_none {s : State} {epic : Epic} {epicIndex : Nat}
    {id now : String} (h : id ∉ epicTreeIds epic) :
    findAndRemoveTask s epic epicIndex id now = none := by
  unfold findAndRemoveTask
  exact findAndRemoveTaskLoop_none 0 epic.tasks
    (fun t ht hmem => h (mem_epicTreeIds_of_task ht hmem))

theorem removeItemEpicsLoop_skip {s : State} {id now : String} {pre : List Epic}
    (rest : List Epic) (h : ∀ e ∈ pre, id ∉ epicTreeIds e) :
    ∀ i : Nat, removeItemEpicsLoop s id now i (pre ++ rest) =
      removeItemEpicsLoop s id now (i + pre.length) rest := by
  induction pre with
  | nil => intro i; simp
  | cons e es ih =>
    intro i
    have he := h e (by simp)
    have heid : (e.id == id) = false := by
      simp only [beq_eq_false_iff_ne, ne_eq]
      intro hEq
      exact he (by simp [epicTreeIds, hEq])
    rw [List.cons_append]
    simp only [removeItemEpicsLoop, heid, Bool.false_eq_true, if_false,
      findAndRemoveTask_none he]
    rw [ih (fun x hx => h x (by simp [hx])) (i + 1)]
    congr 1
    simp only [List.length_cons]
    omega

/-- C8: `removeItem` on a Task T nested under Epic E deletes exactly T (and
with it all of T's subtasks, which live inside T) from E's task list and
refreshes E's `updated_at`; E itself survives with its status and all other
fields unchanged, and every other epic and all standalone tasks are untouched
(no upward cascade). -/
theorem removeItem_task_frame {s : State} {pre post : List Epic} {E : Epic}
    {tpre tpost : List Task} {T : Task} (now : String)
    (hep : s.epics = pre ++ E :: post) (hts : E.tasks = tpre ++ T :: tpost)
    (hu : UniqueIds s) :
    removeItem s T.id now =
      Except.ok { s with epics := pre ++
        { E with tasks := tpre ++ tpost, updated_at := some now } :: post } := by
  obtain ⟨g1, g2, g3, g4, g5⟩ := uniqueIds_task_facts hep hts hu
  have hEid : (E.id == T.id) = false := by simp [g2]
  have hTid : (T.id == T.id) = true := by simp
  have hfart : findAndRemoveTask s E pre.length T.id now =
      some (removeTask s pre.length E tpre.length now) := by
    unfold findAndRemoveTask
    rw [hts, findAndRemoveTaskLoop_skip (T :: tpost) g3 0]
    simp only [findAndRemoveTaskLoop, hTid, if_true, Nat.zero_add]
  have hloop : removeItemEpicsLoop s T.id now 0 s.epics =
      some (removeTask s pre.length E tpre.length now) := by
    rw [hep, removeItemEpicsLoop_skip (E :: post) g1 0]
    simp only [removeItemEpicsLoop, hEid, Bool.false_eq_true, if_false, hfart,
      Nat.zero_add]
  unfold removeItem
  rw [hloop]
  show removeTask s pre.length E tpre.length now = _
  unfold removeTask
  dsimp only [updateEpicInState]
  rw [hep, hts, set_middle, eraseIdx_middle]

/-- Concrete entities for the C4 witness: a pending subtask in a pending task
in a pending epic. -/
def c4wS : Subtask :=
  { id := "s1", content := "sub one content", priority := 2, status := Status.pending,
    created_at := "2024-01-15T10:00:00.000Z" }

/-- The C4 witness task. -/
def c4wT : Task :=
  { id := "t1", content := "task one content", priority := 2, status := Status.pending,
    created_at := "2024-01-15T10:00:00.000Z", subtasks := [c4wS] }

/-- The C4 witness epic. -/
def c4wE : Epic :=
  { id := "e1", content := "epic one content", priority := 2, status := Status.pending,
    created_at := "2024-01-15T10:00:00.000Z", tasks := [c4wT] }

/-- The C4 witness state. -/
def c4wstate : State := { version := 1, epics := [c4wE], tasks := none }

/-- Witness for C4 (amended): completing the only subtask of the only task of
a pending epic cascades completion to all three levels. -/
theorem markComplete_cascades_full_witness :
    c4wstate.epics = [] ++ c4wE :: [] ∧ c4wE.tasks = [c4wT] ∧ c4wT.subtasks = [c4wS] ∧
    UniqueIds c4wstate ∧ c4wT.status ≠ Status.completed ∧
    (∃ E2 T2 S2,
      markComplete c4wstate c4wS.id "2024-01-16T10:00:00.000Z" =
        Except.ok { c4wstate with epics := [] ++ E2 :: [] } ∧
      E2.tasks = [T2] ∧ T2.subtasks = [S2] ∧
      S2.status = Status.completed ∧ S2.completed_at = some "2024-01-16T10:00:00.000Z" ∧
      T2.status = Status.completed ∧ T2.completed_at = some "2024-01-16T10:00:00.000Z" ∧
      E2.status = Status.completed ∧ E2.completed_at = some "2024-01-16T10:00:00.000Z") :=
  ⟨rfl, rfl, rfl, by show (stateIds c4wstate).Nodup; decide, by decide,
    markComplete_cascades_full "2024-01-16T10:00:00.000Z"
      (show c4wstate.epics = [] ++ c4wE :: [] from rfl)
      (show c4wE.tasks = [c4wT] from rfl)
      (show c4wT.subtasks = [c4wS] from rfl)
      (by show (stateIds c4wstate).Nodup; decide) (by decide)⟩

/-- The state refuting C4 as literally stated: the sole Task is already
marked completed (with no `completed_at`) while the Epic is still pending. -/
def c4badstate : State :=
  { version := 1,
    epics := [{ id := "e1", content := "epic one content", priority := 2,
                status := Status.pending, created_at := "2024-01-15T10:00:00.000Z",
                tasks := [{ id := "t1", content := "task one content", priority := 2,
                            status := Status.completed,
                            created_at := "2024-01-15T10:00:00.000Z",
                            subtasks := [{ id := "s1", content := "sub one content",
                                           priority := 2, status := Status.pending,
                                           created_at := "2024-01-15T10:00:00.000Z" }] }] }],
    tasks := none }

/-- Counterexample to C4 as stated: in `c4badstate` Epic e1 contains exactly
one Task t1 with exactly one Subtask s1, yet after `markComplete s1` the Epic
is still pending (not completed) and the Task still has no `completed_at` —
the cascade's task step early-returns because t1 was already completed. -/
theorem markComplete_cascades_full_counterexample :
    UniqueIds c4badstate ∧
    c4badstate.epics.map (fun e => e.tasks.map (fun t => t.subtasks.length)) = [[1]] ∧
    (markComplete c4badstate "s1" "2024-01-16T10:00:00.000Z").map
      (fun st => st.epics.map (fun e => (e.status, e.completed_at,
        e.tasks.map (fun t => (t.status, t.completed_at))))) =
      Except.ok [(Status.pending, none, [(Status.completed, none)])] :=
  ⟨by show (stateIds c4badstate).Nodup; decide, rfl, rfl⟩

/-- Concrete entities for the C5 witness. -/
def c5wS : Subtask :=
  { id := "s1", content := "sub one content", priority := 2, status := Status.pending,
    created_at := "2024-01-15T10:00:00.000Z" }

/-- The C5 witness task T1 (its last incomplete subtask is `c5wS`). -/
def c5wT1 : Task :=
  { id := "t1", content := "task one content", priority := 2, status := Status.pending,
    created_at := "2024-01-15T10:00:00.000Z", subtasks := [c5wS] }

/-- The C5 witness task T2, not completed. -/
def c5wT2 : Task :=
  { id := "t2", content := "task two content", priority := 2, status := Status.pending,
    created_at := "2024-01-15T10:00:00.000Z" }

/-- The C5 witness epic with the two tasks. -/
def c5wE : Epic :=
  { id := "e1", content := "epic one content", priority := 2, status := Status.in_progress,
    created_at := "2024-01-15T10:00:00.000Z", tasks := [c5wT1, c5wT2] }

/-- The C5 witness state. -/
def c5wstate : State := { version := 1, epics := [c5wE], tasks := none }

/-- Witness for C5: completing T1's last subtask completes T1 but leaves the
epic's status `in_progress` because T2 is incomplete. -/
theorem markComplete_cascade_partial_witness :
    c5wstate.epics = [] ++ c5wE :: [] ∧ c5wE.tasks = [] ++ c5wT1 :: [c5wT2] ∧
    c5wT1.subtasks = [] ++ c5wS :: [] ∧ UniqueIds c5wstate ∧
    c5wT2.status ≠ Status.completed ∧ c5wS.status ≠ Status.completed ∧
    (∃ E2 T2,
      markComplete c5wstate c5wS.id "2024-01-16T10:00:00.000Z" =
        Except.ok { c5wstate with epics := [] ++ E2 :: [] } ∧
      E2.tasks = [] ++ T2 :: [c5wT2] ∧
      T2.status = Status.completed ∧
      E2.status = c5wE.status) :=
  ⟨rfl, rfl, rfl, by show (stateIds c5wstate).Nodup; decide, by decide, by decide,
    markComplete_cascade_partial "2024-01-16T10:00:00.000Z"
      (show c5wstate.epics = [] ++ c5wE :: [] from rfl)
      (show c5wE.tasks = [] ++ c5wT1 :: [c5wT2] from rfl)
      (show c5wT1.subtasks = [] ++ c5wS :: [] from rfl)
      (by show (stateIds c5wstate).Nodup; decide)
      ⟨c5wT2, Or.inr (by simp), by decide⟩
      (fun su h => absurd h (by simp)) (by decide)⟩

/-- The C9 witness epic has one pending task with one pending subtask. -/
def c9wE : Epic :=
  { id := "e1", content := "epic one content", priority := 2, status := Status.in_progress,
    created_at := "2024-01-15T10:00:00.000Z",
    tasks := [{ id := "t1", content := "task one content", priority := 2,
                status := Status.pending, created_at := "2024-01-15T10:00:00.000Z",
                subtasks := [{ id := "s1", content := "sub one content", priority := 2,
                               status := Status.pending,
                               created_at := "2024-01-15T10:00:00.000Z" }] }] }

/-- The C9 witness state, with a standalone task as well. -/
def c9wstate : State :=
  { version := 1, epics := [c9wE],
    tasks := some [{ id := "t9", content := "standalone task one", priority := 2,
                     status := Status.pending,
                     created_at := "2024-01-15T10:00:00.000Z" }] }

/-- Witness for C9: completing the epic by id succeeds although its task is
incomplete, and the task list is carried over unchanged. -/
theorem markComplete_epic_frame_witness :
    c9wstate.epics = [] ++ c9wE :: [] ∧ UniqueIds c9wstate ∧
    (∃ E2, markComplete c9wstate c9wE.id "2024-01-16T10:00:00.000Z" =
        Except.ok { c9wstate with epics := [] ++ E2 :: [] } ∧
      E2.status = Status.completed ∧ E2.completed_at = some "2024-01-16T10:00:00.000Z" ∧
      E2.updated_at = some "2024-01-16T10:00:00.000Z" ∧
      E2.tasks = c9wE.tasks ∧ E2.id = c9wE.id ∧ E2.content = c9wE.content ∧
      E2.priority = c9wE.priority ∧ E2.created_at = c9wE.created_at ∧
      E2.notes = c9wE.notes ∧ E2.deps = c9wE.deps) :=
  ⟨rfl, by show (stateIds c9wstate).Nodup; decide,
    markComplete_epic_frame "2024-01-16T10:00:00.000Z"
      (show c9wstate.epics = [] ++ c9wE :: [] from rfl)
      (by show (stateIds c9wstate).Nodup; decide)⟩

/-- The C10 witness subtask, already completed with an old timestamp. -/
def c10wS : Subtask :=
  { id := "s1", content := "sub one content", priority := 2, status := Status.completed,
    created_at := "2024-01-15T10:00:00.000Z",
    completed_at := some "2024-01-15T12:00:00.000Z" }

/-- The C10 witness task, already completed but with no `completed_at`. -/
def c10wT : Task :=
  { id := "t1", content := "task one content", priority := 2, status := Status.completed,
    created_at := "2024-01-15T10:00:00.000Z", subtasks := [c10wS] }

/-- The C10 witness epic, still pending. -/
def c10wE : Epic :=
  { id := "e1", content := "epic one content", priority := 2, status := Status.pending,
    created_at := "2024-01-15T10:00:00.000Z", tasks := [c10wT] }

/-- The C10 witness state. -/
def c10wstate : State := { version := 1, epics := [c10wE], tasks := none }

/-- Witness for C10: re-completing the already-completed subtask overwrites
its timestamps with the new instant, while the already-completed parent task
keeps its status and (absent) `completed_at`, and the epic stays pending. -/
theorem markComplete_recompletes_witness :
    c10wstate.epics = [] ++ c10wE :: [] ∧ c10wE.tasks = [] ++ c10wT :: [] ∧
    c10wT.subtasks = [] ++ c10wS :: [] ∧ UniqueIds c10wstate ∧
    c10wT.status = Status.completed ∧ c10wS.status = Status.completed ∧
    (∃ E2 T2,
      markComplete c10wstate c10wS.id "2024-01-16T10:00:00.000Z" =
        Except.ok { c10wstate with epics := [] ++ E2 :: [] } ∧
      E2.tasks = [] ++ T2 :: [] ∧
      T2.subtasks = [] ++
        applyUpdateSubtask c10wS completedInput "2024-01-16T10:00:00.000Z" :: [] ∧
      (applyUpdateSubtask c10wS completedInput "2024-01-16T10:00:00.000Z").status =
        Status.completed ∧
      (applyUpdateSubtask c10wS completedInput "2024-01-16T10:00:00.000Z").updated_at =
        some "2024-01-16T10:00:00.000Z" ∧
      (applyUpdateSubtask c10wS completedInput "2024-01-16T10:00:00.000Z").completed_at =
        some "2024-01-16T10:00:00.000Z" ∧
      T2.status = c10wT.status ∧ T2.completed_at = c10wT.completed_at ∧
      E2.status = c10wE.status ∧ E2.completed_at = c10wE.completed_at) :=
  ⟨rfl, rfl, rfl, by show (stateIds c10wstate).Nodup; decide, rfl, rfl,
    markComplete_recompletes_and_skips_completed_parent "2024-01-16T10:00:00.000Z"
      (show c10wstate.epics = [] ++ c10wE :: [] from rfl)
      (show c10wE.tasks = [] ++ c10wT :: [] from rfl)
      (show c10wT.subtasks = [] ++ c10wS :: [] from rfl)
      (by show (stateIds c10wstate).Nodup; decide) rfl rfl⟩

/-- The C8 witness task, with a subtask that is deleted along with it. -/
def c8wT : Task :=
  { id := "t1", content := "task one content", priority := 2, status := Status.pending,
    created_at := "2024-01-15T10:00:00.000Z",
    subtasks := [{ id := "s1", content := "sub one content", priority := 2,
                   status := Status.pending,
                   created_at := "2024-01-15T10:00:00.000Z" }] }

/-- The C8 witness epic holding only `c8wT`. -/
def c8wE : Epic :=
  { id := "e1", content := "epic one content", priority := 2, status := Status.in_progress,
    created_at := "2024-01-15T10:00:00.000Z", tasks := [c8wT] }

/-- The C8 witness state, with a second epic and a standalone task that must
survive removal untouched. -/
def c8wstate : State :=
  { version := 1,
    epics := [c8wE,
              { id := "e2", content := "epic two content", priority := 2,
                status := Status.pending, created_at := "2024-01-15T10:00:00.000Z" }],
    tasks := some [{ id := "t9", content := "standalone task one", priority := 2,
                     status := Status.pending,
                     created_at := "2024-01-15T10:00:00.000Z" }] }

/-- Witness for C8: removing the only task of the first epic leaves that epic
with an empty task list and a refreshed `updated_at`, its status unchanged,
and the other epic plus the standalone task untouched. -/
theorem removeItem_task_frame_witness :
    c8wstate.epics = [] ++ c8wE ::
      [{ id := "e2", content := "epic two content", priority := 2,
         status := Status.pending, created_at := "2024-01-15T10:00:00.000Z" }] ∧
    c8wE.tasks = [] ++ c8wT :: [] ∧ UniqueIds c8wstate ∧
    removeItem c8wstate c8wT.id "2024-01-16T10:00:00.000Z" =
      Except.ok { c8wstate with epics := [] ++
        { c8wE with tasks := ([] : List Task) ++ [],
                    updated_at := some "2024-01-16T10:00:00.000Z" } ::
        [{ id := "e2", content := "epic two content", priority := 2,
           status := Status.pending, created_at := "2024-01-15T10:00:00.000Z" }] } :=
  ⟨rfl, rfl, by show (stateIds c8wstate).Nodup; decide,
    removeItem_task_frame "2024-01-16T10:00:00.000Z"
      (show c8wstate.epics = [] ++ c8wE ::
        [{ id := "e2", content := "epic two content", priority := 2,
           status := Status.pending,
           created_at := "2024-01-15T10:00:00.000Z" }] from rfl)
      (show c8wE.tasks = [] ++ c8wT :: [] from rfl)
      (by show (stateIds c8wstate).Nodup; decide)⟩

theorem buildDepsMapAux_no_overwrite :
    ∀ (items : List CycleItem) (m : List (String × List String)),
      (∀ i ∈ items, ∀ p ∈ m, p.1 ≠ i.id) →
      (items.map CycleItem.id).Nodup →
      buildDepsMapAux m items =
        m ++ items.map (fun i => (i.id, i.deps.getD [])) := by
  intro items
  induction items with
  | nil => intro m hdis hnd; simp [buildDepsMapAux]
  | cons i rest ih =>
    intro m hdis hnd
    rw [List.map_cons, List.nodup_cons] at hnd
    obtain ⟨hinotin, hndrest⟩ := hnd
    have hany : m.any (fun p => p.1 == i.id) = false := by
      rw [List.any_eq_false]
      intro p hp
      simp [hdis i (by simp) p hp]
    have hset : mapSet m i.id (i.deps.getD []) = m ++ [(i.id, i.deps.getD [])] := by
      unfold mapSet
      rw [hany]
      simp
    show buildDepsMapAux (mapSet m i.id (i.deps.getD [])) rest = _
    rw [hset, ih (m ++ [(i.id, i.deps.getD [])])]
    · simp
    · intro j hj p hp
      rw [List.mem_append] at hp
      rcases hp with hp | hp
      · exact hdis j (by simp [hj]) p hp
      · simp only [List.mem_singleton] at hp
        rw [hp]
        intro hEq
        exact hinotin (List.mem_map.mpr ⟨j, hj, hEq.symm⟩)
    · exact hndrest

theorem lookup_buildDepsMap {items : List CycleItem} {a : CycleItem}
    (ha : a ∈ items) (hnd : (items.map CycleItem.id).Nodup) :
    mapLookup (buildDepsMap items) a.id = some (a.deps.getD []) := by
  unfold buildDepsMap
  rw [buildDepsMapAux_no_overwrite items [] (by simp) hnd]
  rw [List.nil_append]
  obtain ⟨ipre, ipost, hdecomp⟩ := List.append_of_mem ha
  subst hdecomp
  rw [List.map_append, List.map_cons] at hnd ⊢
  obtain ⟨hnpre, hnrest, hdis⟩ := nodup_append_facts hnd
  unfold mapLookup
  rw [find?_middle (fun p => p.1 == a.id) (ipost.map (fun i => (i.id, i.deps.getD [])))
    (a.id, a.deps.getD [])
    (fun p hp => by
      rw [List.mem_map] at hp
      obtain ⟨j, hj, hpj⟩ := hp
      rw [← hpj]
      simp only [beq_eq_false_iff_ne, ne_eq]
      intro hEq
      exact hdis a.id (by simp) (hEq ▸ List.mem_map.mpr ⟨j, hj, rfl⟩))
    (by simp)]
  rfl

theorem two_mem_length {α : Type} {a b : α} {l : List α} (ha : a ∈ l) (hb : b ∈ l)
    (hne : a ≠ b) : 2 ≤ l.length := by
  obtain ⟨s, t, hdecomp⟩ := List.append_of_mem ha
  subst hdecomp
  rw [List.mem_append, List.mem_cons] at hb
  rcases hb with hb | hb | hb
  · have := List.length_pos_of_mem hb
    simp only [List.length_append, List.length_cons]
    omega
  · exact absurd hb.symm hne
  · have := List.length_pos_of_mem hb
    simp only [List.length_append, List.length_cons]
    omega

theorem detectCycle_two_cycle {items : List CycleItem} {A B : CycleItem}
    (hA : A ∈ items) (hB : B ∈ items) (hnd : (items.map CycleItem.id).Nodup)
    (hne : A.id ≠ B.id)
    (hAB : B.id ∈ A.deps.getD []) (hBA : A.id ∈ B.deps.getD []) :
    detectCycle (items.length + 1) A.id (A.deps.getD [])
      (buildDepsMap items) [] = true := by
  have hlen : 2 ≤ items.length :=
    two_mem_length hA hB (fun hEq => hne (by rw [hEq]))
  obtain ⟨k, hk⟩ : ∃ k, items.length = k + 2 := ⟨items.length - 2, by omega⟩
  rw [hk]
  show detectCycle (k + 3) A.id (A.deps.getD []) (buildDepsMap items) [] = true
  unfold detectCycle
  simp only [List.contains_nil, Bool.false_eq_true, if_false]
  rw [List.any_eq_true]
  refine ⟨B.id, hAB, ?_⟩
  rw [lookup_buildDepsMap hB hnd]
  unfold detectCycle
  have hcont : ([A.id].contains B.id) = false := by
    simp only [List.contains_cons, List.contains_nil, Bool.or_false,
      beq_eq_false_iff_ne, ne_eq]
    exact fun hEq => hne hEq.symm
  rw [hcont]
  simp only [Bool.false_eq_true, if_false, Option.getD_some]
  rw [List.any_eq_true]
  refine ⟨A.id, hBA, ?_⟩
  unfold detectCycle
  simp [List.contains_cons]

theorem checkCycles_reports {items : List CycleItem} {label : String} {item : CycleItem}
    {ds : List String} (hmem : item ∈ items) (hdeps : item.deps = some ds)
    (hne : ds ≠ [])
    (hdetect : detectCycle (items.length + 1) item.id ds (buildDepsMap items) [] = true) :
    (label ++ " \"" ++ item.content.take 20 ++ "...\" has circular dependency") ∈
      checkCycles items label := by
  have hlen : (ds.length == 0) = false := by
    simp only [beq_eq_false_iff_ne, ne_eq]
    intro h
    exact hne (List.eq_nil_of_length_eq_zero h)
  unfold checkCycles
  rw [List.mem_filterMap]
  refine ⟨item, hmem, ?_⟩
  rw [hdeps]
  dsimp only
  rw [hlen]
  simp only [Bool.false_eq_true, if_false, hdetect, if_true]

/-- C6: if two Epics A and B depend on each other, `lintState` reports a
circular-dependency warning (in particular for A, hence for at least one of
the two); and in general any item in a checkCycles pass whose nonempty deps
make the depth-first traversal revisit an id still on the active stack
(`detectCycle` returns true) is reported with a circular-dependency warning. -/
theorem lint_reports_epic_dep_cycle :
    (∀ (s : State) (A B : Epic), A ∈ s.epics → B ∈ s.epics →
      (s.epics.map Epic.id).Nodup → A.id ≠ B.id →
      B.id ∈ A.deps.getD [] → A.id ∈ B.deps.getD [] →
      ("Epic" ++ " \"" ++ A.content.take 20 ++ "...\" has circular dependency") ∈
        (lintState s).warnings) ∧
    (∀ (items : List CycleItem) (label : String) (item : CycleItem) (ds : List String),
      item ∈ items → item.deps = some ds → ds ≠ [] →
      detectCycle (items.length + 1) item.id ds (buildDepsMap items) [] = true →
      (label ++ " \"" ++ item.content.take 20 ++ "...\" has circular dependency") ∈
        checkCycles items label) := by
  constructor
  · intro s A B hA hB hnd hne hAB hBA
    have hdepsA : A.deps = some (A.deps.getD []) := by
      cases hd : A.deps with
      | none => rw [hd] at hAB; exact absurd hAB (by simp)
      | some ds => simp [hd]
    have hndC : ((s.epics.map epicCycleItem).map CycleItem.id).Nodup := by
      rw [List.map_map]
      exact hnd
    have hAC : epicCycleItem A ∈ s.epics.map epicCycleItem :=
      List.mem_map.mpr ⟨A, hA, rfl⟩
    have hBC : epicCycleItem B ∈ s.epics.map epicCycleItem :=
      List.mem_map.mpr ⟨B, hB, rfl⟩
    have hdet := detectCycle_two_cycle hAC hBC hndC hne hAB hBA
    have hrep := @checkCycles_reports (s.epics.map epicCycleItem) "Epic"
      (epicCycleItem A) (A.deps.getD []) hAC hdepsA
      (by
        intro h
        rw [h] at hAB
        exact absurd hAB (by simp))
      hdet
    unfold lintState
    simp only
    exact List.mem_append_right _ hrep
  · intro items label item ds hmem hdeps hne hdetect
    exact checkCycles_reports hmem hdeps hne hdetect

/-- The C6 witness epic A, depending on B. -/
def c6wA : Epic :=
  { id := "a1", content := "epic alpha content", priority := 2, status := Status.pending,
    created_at := "2024-01-15T10:00:00.000Z", deps := some ["b1"] }

/-- The C6 witness epic B, depending back on A. -/
def c6wB : Epic :=
  { id := "b1", content := "epic beta content!", priority := 2, status := Status.pending,
    created_at := "2024-01-15T10:00:00.000Z", deps := some ["a1"] }

/-- The C6 witness state with the two mutually dependent epics. -/
def c6wstate : State := { version := 1, epics := [c6wA, c6wB], tasks := none }

/-- Witness for C6: the two-epic dependency cycle is reported by lintState. -/
theorem lint_reports_epic_dep_cycle_witness :
    c6wA ∈ c6wstate.epics ∧ c6wB ∈ c6wstate.epics ∧
    (c6wstate.epics.map Epic.id).Nodup ∧ c6wA.id ≠ c6wB.id ∧
    c6wB.id ∈ c6wA.deps.getD [] ∧ c6wA.id ∈ c6wB.deps.getD [] ∧
    ("Epic" ++ " \"" ++ c6wA.content.take 20 ++ "...\" has circular dependency") ∈
      (lintState c6wstate).warnings :=
  ⟨by decide, by decide, by decide, by decide, by decide, by decide,
    lint_reports_epic_dep_cycle.1 c6wstate c6wA c6wB (by decide) (by decide)
      (by decide) (by decide) (by decide) (by decide)⟩

end Jots
